import Mathlib

/-! FooBar assignment: coordinator, workers and serial feeder.

A shallow embedding of `foobar.cpp` and `serial.cpp`.  Unsigned 32-bit
quantities are natural numbers reduced modulo `UINT32_MOD` where the C
arithmetic can wrap.  FreeRTOS queues are lists with a capacity; the sends and
receives of the source all pass a zero wait, so they are the non-blocking
operations below.  The target is the ESP32, where `long` has 32 bits.
-/

namespace FooBar

/-! ## Machine integers and constants -/

/-- Number of values of a `uint32_t`. -/
def UINT32_MOD : Nat := 4294967296

/-- Constant `FOOBAR_QUEUE_SIZE` (foobar.cpp, line 47). -/
def FOOBAR_QUEUE_SIZE : Nat := 7

/-- Constant `FOO_QUEUE_SIZE` (foobar.cpp, line 50). -/
def FOO_QUEUE_SIZE : Nat := 1

/-- Constant `BAR_QUEUE_SIZE` (foobar.cpp, line 53). -/
def BAR_QUEUE_SIZE : Nat := 1

/-- Constant `PRINT_BUFFER_SIZE` (foobar.cpp, line 56). -/
def PRINT_BUFFER_SIZE : Nat := 64

/-- Constant `RX_BUF_SIZE` (serial.cpp, line 31). -/
def RX_BUF_SIZE : Nat := 32

/-- The structure `foobarMsg_t` (foobar.cpp, lines 64-67). -/
structure foobarMsg_t where
  value : Nat
  isPrime : Bool
deriving DecidableEq, Repr

/-! ## Queues -/

/-- The call `xQueueSend` with a zero wait on a queue of capacity `cap`: the item goes
to the tail when there is room (`pdPASS`, here `true`), and otherwise the queue
is left alone and the call fails at once. -/
def xQueueSend {α : Type} (cap : Nat) (q : List α) (item : α) : List α × Bool :=
  if q.length < cap then (q ++ [item], true) else (q, false)

/-- The call `xQueueReceive` with a zero wait: the head is removed and returned when
there is one, and otherwise the call fails at once. -/
def xQueueReceive {α : Type} (q : List α) : List α × Option α :=
  match q with
  | [] => ([], none)
  | x :: rest => (rest, some x)

/-! ## `isPrime` (foobar.cpp, lines 242-256) -/

/-- The divisor loop `for (uint32_t i = 2; i <= value / 2; i++)` of `isPrime`.
The first argument bounds the number of evaluations of the loop condition;
`none` means that the bound was reached before the loop exited.  The
increment `i++` wraps like the `uint32_t` it is. -/
def isPrimeLoop (value : Nat) : Nat → Nat → Bool → Option Bool
  | 0, _, _ => none
  | fuel + 1, i, retval =>
    if i ≤ value / 2 then
      isPrimeLoop value fuel ((i + 1) % UINT32_MOD)
        (if value % i = 0 then false else retval)
    else
      some retval

/-- The function `isPrime` run with a given bound on the loop. -/
def isPrimeFuel (fuel value : Nat) : Option Bool :=
  isPrimeLoop value fuel 2 (if value ≤ 1 then false else true)

/-- The function `isPrime`: the loop is given `value / 2 + 1` evaluations of
its condition, which `isPrimeLoop_enough` shows to be sufficient for every
32-bit value. -/
def isPrime (value : Nat) : Option Bool :=
  isPrimeFuel (value / 2 + 1) value

/-! ## The coordinator `foobar_task` (foobar.cpp, lines 120-168) -/

/-- The variables the loop of `foobar_task` works on: the static counter
`curValue`, the request queue and the two worker queues. -/
structure FoobarState where
  curValue : Nat
  foobarQueue : List Nat
  fooQueue : List foobarMsg_t
  barQueue : List foobarMsg_t
deriving DecidableEq, Repr

/-- The queue operations one tick of `foobar_task` performs, in order. -/
inductive Event where
  | receive (got : Option Nat)
  | sendFoo (msg : foobarMsg_t) (ok : Bool)
  | sendBar (msg : foobarMsg_t) (ok : Bool)
deriving DecidableEq, Repr

/-- The first block of the loop body (lines 136-142): when `curValue` is 0 a
receive on the request queue is attempted, and `curValue` is reset to 0 when
it fails. -/
def idleCheck (s : FoobarState) : FoobarState × List Event :=
  if s.curValue = 0 then
    match xQueueReceive s.foobarQueue with
    | (q, some v) => ({ s with curValue := v, foobarQueue := q }, [Event.receive (some v)])
    | (q, none) => ({ s with curValue := 0, foobarQueue := q }, [Event.receive none])
  else
    (s, [])

/-- The second block of the loop body (lines 145-164): when `curValue > 0` the
message is built, sent to `fooQueue` for an even value and to `barQueue` for an
odd one, and `curValue` is decremented.  `none` only when `isPrime` does not
return. -/
def activeProcessing (s : FoobarState) : Option (FoobarState × List Event) :=
  if s.curValue > 0 then
    match isPrime s.curValue with
    | none => none
    | some p =>
      let msg : foobarMsg_t := { value := s.curValue, isPrime := p }
      let next := (s.curValue + (UINT32_MOD - 1)) % UINT32_MOD
      if s.curValue % 2 = 0 then
        let r := xQueueSend FOO_QUEUE_SIZE s.fooQueue msg
        some ({ s with curValue := next, fooQueue := r.1 }, [Event.sendFoo msg r.2])
      else
        let r := xQueueSend BAR_QUEUE_SIZE s.barQueue msg
        some ({ s with curValue := next, barQueue := r.1 }, [Event.sendBar msg r.2])
  else
    some (s, [])

/-- One execution of the loop body of `foobar_task` (lines 133-167): the two
blocks one after the other. -/
def foobar_task_tick (s : FoobarState) : Option (FoobarState × List Event) :=
  match activeProcessing (idleCheck s).1 with
  | none => none
  | some (s2, ev2) => some (s2, (idleCheck s).2 ++ ev2)

/-- Repeated ticks of `foobar_task`; before each tick the other tasks act on
the state through `env`. -/
def runTicks (env : FoobarState → FoobarState) :
    Nat → FoobarState → Option (FoobarState × List Event)
  | 0, s => some (s, [])
  | k + 1, s =>
    match foobar_task_tick (env s) with
    | none => none
    | some (s1, ev1) =>
      match runTicks env k s1 with
      | none => none
      | some (s2, ev2) => some (s2, ev1 ++ ev2)

/-- The workers have emptied their queues. -/
def drainWorkers (s : FoobarState) : FoobarState :=
  { s with fooQueue := [], barQueue := [] }

/-- The messages offered to a worker queue, in order. -/
def sentMsgs : List Event → List foobarMsg_t
  | [] => []
  | Event.receive _ :: evs => sentMsgs evs
  | Event.sendFoo m _ :: evs => m :: sentMsgs evs
  | Event.sendBar m _ :: evs => m :: sentMsgs evs

/-- The sends that failed because the queue was full. -/
def droppedMsgs : List Event → List foobarMsg_t
  | [] => []
  | Event.receive _ :: evs => droppedMsgs evs
  | Event.sendFoo m ok :: evs => if ok then droppedMsgs evs else m :: droppedMsgs evs
  | Event.sendBar m ok :: evs => if ok then droppedMsgs evs else m :: droppedMsgs evs

/-- The receives attempted on the request queue, in order. -/
def receives : List Event → List (Option Nat)
  | [] => []
  | Event.receive r :: evs => r :: receives evs
  | Event.sendFoo _ _ :: evs => receives evs
  | Event.sendBar _ _ :: evs => receives evs

/-- The values `n, n-1, ..., 1`. -/
def countdown : Nat → List Nat
  | 0 => []
  | n + 1 => (n + 1) :: countdown n

/-- The counter and every queued request fit in a `uint32_t`. -/
def FoobarState.WF (s : FoobarState) : Prop :=
  s.curValue < UINT32_MOD ∧ ∀ x ∈ s.foobarQueue, x < UINT32_MOD

instance (s : FoobarState) : Decidable s.WF := by
  unfold FoobarState.WF; infer_instance

/-- The worker queue the value `v` is routed to. -/
def destQueue (s : FoobarState) (v : Nat) : List foobarMsg_t :=
  if v % 2 = 0 then s.fooQueue else s.barQueue

/-! ## The workers `foo_task` and `bar_task` (foobar.cpp, lines 177-234) -/

/-- The conversion `%ld` applied to the `uint32_t` field `msg.value`: the 32
bits are read as a `long`, so values from `2 ^ 31` on come out negative. -/
def formatLd (value : Nat) : List Char :=
  if value % UINT32_MOD < 2147483648 then
    Nat.toDigits 10 (value % UINT32_MOD)
  else
    '-' :: Nat.toDigits 10 (UINT32_MOD - value % UINT32_MOD)

/-- The call `snprintf(buffer, n, "<label>%ld", value)`: the text left in the
buffer, which is the formatted text cut to `n - 1` characters, the last place
going to the terminating NUL. -/
def snprintf (n : Nat) (label : List Char) (value : Nat) : List Char :=
  (label ++ formatLd value).take (n - 1)

/-- The call `strncat(dest, src, n)`: at most `n` characters of `src` are
appended. -/
def strncat (dest src : List Char) (n : Nat) : List Char :=
  dest ++ src.take n

/-- The text a worker builds for a message (lines 187-194 and 220-227):
`snprintf` with bound 14, then `strncat` of `" Prime"` when the flag is set. -/
def renderMsg (label : List Char) (msg : foobarMsg_t) : List Char :=
  if msg.isPrime then
    strncat (snprintf 14 label msg.value) " Prime".toList 7
  else
    snprintf 14 label msg.value

/-- One execution of the loop body of `foo_task` (lines 183-199).  The local
`msg` is not initialised; the argument `msg` stands for whatever it holds when
the receive leaves it alone.  The body of the `if` runs when the receive did
not return `pdPASS`.  Returns the queue and the texts written to the UART. -/
def foo_task_tick (msg : foobarMsg_t) (fooQueue : List foobarMsg_t) :
    List foobarMsg_t × List String :=
  match xQueueReceive fooQueue with
  | (q, some _) => (q, [])
  | (q, none) => (q, [String.mk (renderMsg "Foo ".toList msg)])

/-- One execution of the loop body of `bar_task` (lines 216-232), as
`foo_task_tick`. -/
def bar_task_tick (msg : foobarMsg_t) (barQueue : List foobarMsg_t) :
    List foobarMsg_t × List String :=
  match xQueueReceive barQueue with
  | (q, some _) => (q, [])
  | (q, none) => (q, [String.mk (renderMsg "Bar ".toList msg)])

/-- What the specification asks a worker to write for a message: the label,
a space, the decimal digits of the unsigned value, and `" Prime"` when the flag
is set. -/
def expectedText (label : String) (msg : foobarMsg_t) : String :=
  label ++ " " ++ String.mk (Nat.toDigits 10 msg.value) ++ (if msg.isPrime then " Prime" else "")

/-! ## The feeder (serial.cpp) -/

/-- The text `strInvalidData` (serial.cpp, line 46). -/
def strInvalidData : String := "Invalid data"

/-- The text `strQueueFull` (serial.cpp, line 47). -/
def strQueueFull : String := "Currently full"

/-- The value `ERANGE` of `errno`. -/
def ERANGE : Nat := 34

/-- The value `LONG_MAX` of the target. -/
def LONG_MAX : Int := 2147483647

/-- The value `LONG_MIN` of the target. -/
def LONG_MIN : Int := -2147483648

/-- The predicate `isspace` of the C locale: space and the characters 9 to 13. -/
def isspace (c : Char) : Bool :=
  c.toNat = 32 || (9 ≤ c.toNat && c.toNat ≤ 13)

/-- The number a string of decimal digits denotes. -/
def decimalValue (digits : List Char) : Nat :=
  digits.foldl (fun acc c => 10 * acc + (c.toNat - 48)) 0

/-- The predicate `isdigit` of the C locale. -/
def isdigit (c : Char) : Bool :=
  48 ≤ c.toNat && c.toNat ≤ 57

/-- The sign accepted by `strtol` and what follows it. -/
def splitSign (s : List Char) : Bool × List Char :=
  match s with
  | [] => (false, [])
  | c :: t =>
    if c = '-' then (true, t)
    else if c = '+' then (false, t)
    else (false, c :: t)

/-- The C library function `strtol(nptr, &endptr, 10)`, on the characters of
`nptr` before its NUL: white space is skipped, a sign is read, then decimal
digits.  Returns the `long`, the text `endptr` points to, and `errno` after the
call.  Without digits nothing is converted and `endptr` is `nptr`; out of the
range of `long` the result is clamped and `errno` becomes `ERANGE`; otherwise
`errno` is left as it was. -/
def strtol (errno : Nat) (nptr : List Char) : Int × List Char × Nat :=
  let afterSign := splitSign (nptr.dropWhile isspace)
  let digits := afterSign.2.takeWhile isdigit
  let rest := afterSign.2.dropWhile isdigit
  if digits = [] then
    (0, nptr, errno)
  else if afterSign.1 then
    if (2147483648 : Nat) < decimalValue digits then (LONG_MIN, rest, ERANGE)
    else (-(decimalValue digits : Int), rest, errno)
  else
    if (2147483647 : Nat) < decimalValue digits then (LONG_MAX, rest, ERANGE)
    else ((decimalValue digits : Int), rest, errno)

/-- The conversion of a `long` to `uint32_t`. -/
def toUint32 (x : Int) : Nat :=
  (x % (UINT32_MOD : Int)).toNat

/-- The character `*p` of a C string given by its characters before the NUL. -/
def charAt (p : List Char) : Char :=
  p.headD (Char.ofNat 0)

/-- The function `serial_validateRxData` (serial.cpp, lines 105-117), on the
value of `errno` at entry and the characters of `rxBuf` before its NUL.
Returns the result, the value stored through `value`, and `errno` at exit. -/
def serial_validateRxData (errno : Nat) (rxBuf : List Char) : Bool × Nat × Nat :=
  let r := strtol errno rxBuf
  (decide (r.2.2 = 0 ∧ charAt r.2.1 = Char.ofNat 0), toUint32 r.1, r.2.2)

/-- What a call of `serial_postFoobarData` leaves behind. -/
structure SerialResult where
  output : List String
  queue : List Nat
  errno : Nat
  restarted : Bool
deriving DecidableEq, Repr

/-- The characters of a buffer before its first NUL. -/
def cstring (buf : List Char) : List Char :=
  buf.takeWhile (fun c => c ≠ Char.ofNat 0)

/-- The function `serial_postFoobarData` (serial.cpp, lines 52-88), on the
bytes the UART delivers (at most `RX_BUF_SIZE - 1` of them are read; none
stands for a timeout or an error), `errno` at entry and the request queue.
The call `esp_restart()` does not return: the result then has `restarted` set
and nothing after the call has been done. -/
def serial_postFoobarData (rx : List Char) (errno : Nat) (queue : List Nat) : SerialResult :=
  let rxBuf := cstring (rx.take (RX_BUF_SIZE - 1))
  if 0 < (rx.take (RX_BUF_SIZE - 1)).length then
    let v := serial_validateRxData errno rxBuf
    if !v.1 then
      { output := [strInvalidData], queue := queue, errno := v.2.2, restarted := false }
    else
      let strReceived := String.mk (strncat "Received ".toList rxBuf rxBuf.length)
      if v.2.1 = 0 then
        { output := [strReceived], queue := queue, errno := v.2.2, restarted := true }
      else
        let r := xQueueSend FOOBAR_QUEUE_SIZE queue v.2.1
        if !r.2 then
          { output := [strReceived, strQueueFull], queue := r.1, errno := v.2.2,
            restarted := false }
        else
          { output := [strReceived], queue := r.1, errno := v.2.2, restarted := false }
  else
    { output := [], queue := queue, errno := errno, restarted := false }

/-- A string of decimal digits only, at least one. -/
def IsDecimalString (buf : List Char) : Prop :=
  buf ≠ [] ∧ ∀ c ∈ buf, isdigit c = true

instance (buf : List Char) : Decidable (IsDecimalString buf) := by
  unfold IsDecimalString; infer_instance

/-- The texts `strtol` converts completely: white space, an optional sign,
and at least one decimal digit, with nothing after. -/
def IsStrtolNumeral (buf ws sign digits : List Char) : Prop :=
  buf = ws ++ sign ++ digits ∧ (∀ c ∈ ws, isspace c = true) ∧
    (sign = [] ∨ sign = ['+'] ∨ sign = ['-']) ∧ IsDecimalString digits

/-- The integer a sign and a string of digits denote. -/
def signedValue (sign digits : List Char) : Int :=
  if sign = ['-'] then -(decimalValue digits : Int) else (decimalValue digits : Int)

/-! ## Auxiliary notions used in the proofs -/

/-- No number in `[i, value / 2]` divides `value`. -/
def NoDivisorFrom (value i : Nat) : Prop :=
  ∀ j, i ≤ j → j ≤ value / 2 → value % j ≠ 0

instance (value i : Nat) : Decidable (NoDivisorFrom value i) :=
  decidable_of_iff (∀ j, j < value / 2 + 1 → i ≤ j → value % j ≠ 0)
    ⟨fun h j hij hj => h j (by omega) hij, fun h j hj hij => h j hij (by omega)⟩

/-- Proof device, not part of the program: `noOddDivisor n k lo` checks that
none of the `2 ^ k` odd-spaced numbers `lo, lo + 2, ...` divides `n`, by
halving the range, so that the check of a ten-digit prime stays shallow. -/
def noOddDivisor (n : Nat) : Nat → Nat → Bool
  | 0, lo => n % lo != 0
  | k + 1, lo => noOddDivisor n k lo && noOddDivisor n k (lo + 2 * 2 ^ k)

/-! ## The send of the feeder -/

/-- The value `serial_postFoobarData` passes to `xQueueSend` (serial.cpp, line
81), or `none` when the call returns or restarts before reaching the send. -/
def serial_postFoobarData_sent (rx : List Char) (errno : Nat) : Option Nat :=
  let rxBuf := cstring (rx.take (RX_BUF_SIZE - 1))
  if 0 < (rx.take (RX_BUF_SIZE - 1)).length then
    let v := serial_validateRxData errno rxBuf
    if !v.1 then none
    else if v.2.1 = 0 then none
    else some v.2.1
  else
    none

/-- Successive calls of `serial_postFoobarData`, one for each input, `errno`
and the request queue being handed from each call to the next. -/
def feedAll : List (List Char) → Nat → List Nat → List SerialResult
  | [], _, _ => []
  | rx :: rest, errno, queue =>
    serial_postFoobarData rx errno queue ::
      feedAll rest (serial_postFoobarData rx errno queue).errno
        (serial_postFoobarData rx errno queue).queue

/-! ## The divisor loop of `isPrime`, with its loop variable recorded -/

/-- The loop of `isPrimeLoop` again, returning next to the result the values
of `i` at which the body ran, that is at which `value % i` was computed, and
the value of `i` at which the loop condition failed. -/
def isPrimeLoopTrace (value : Nat) : Nat → Nat → Bool → Option (Bool × List Nat × Nat)
  | 0, _, _ => none
  | fuel + 1, i, retval =>
    if i ≤ value / 2 then
      match isPrimeLoopTrace value fuel ((i + 1) % UINT32_MOD)
          (if value % i = 0 then false else retval) with
      | none => none
      | some (r, visited, last) => some (r, i :: visited, last)
    else
      some (retval, [], i)

/-- The function `isPrime` with its loop variable recorded. -/
def isPrimeTrace (value : Nat) : Option (Bool × List Nat × Nat) :=
  isPrimeLoopTrace value (value / 2 + 1) 2 (if value ≤ 1 then false else true)

/-! ## The startup of the tasks (foobar.cpp, lines 98-131, 177-180, 210-213) -/

/-- Who takes the next step: one of the three tasks, or the feeder calling
`serial_postFoobarData` on the bytes given. -/
inductive Actor where
  | foobar
  | foo
  | bar
  | feeder (rx : List Char)
deriving DecidableEq, Repr

/-- The system after `foobar_initTasks`.  The position of `foobar_task` is 0
before `xQueueCreateStatic`, 1 before the creation of `foo_task`, 2 before the
creation of `bar_task` and 3 in the loop; a worker is absent until it is
created, then at 0 before its `xQueueCreateStatic` and at 1 in its loop.  The
three flags say which static handles have been assigned; the last two fields
record a send of the coordinator on a worker handle that was not assigned yet
and a handle returned by `foobar_getQueue` before it was assigned. -/
structure SystemState where
  foobarPc : Nat
  fooPc : Option Nat
  barPc : Option Nat
  foobarQueueCreated : Bool
  fooQueueCreated : Bool
  barQueueCreated : Bool
  coord : FoobarState
  errno : Nat
  sendOnNullHandle : Bool
  getQueueNull : Bool
deriving DecidableEq, Repr

/-- The state `foobar_initTasks` leaves: `foobar_task` exists and has not run,
no queue has been created. -/
def afterInit : SystemState :=
  { foobarPc := 0, fooPc := none, barPc := none,
    foobarQueueCreated := false, fooQueueCreated := false, barQueueCreated := false,
    coord := { curValue := 0, foobarQueue := [], fooQueue := [], barQueue := [] },
    errno := 0, sendOnNullHandle := false, getQueueNull := false }

/-- A send to the Foo queue occurs among the events. -/
def sendsToFoo : List Event → Bool
  | [] => false
  | Event.sendFoo _ _ :: _ => true
  | _ :: evs => sendsToFoo evs

/-- A send to the Bar queue occurs among the events. -/
def sendsToBar : List Event → Bool
  | [] => false
  | Event.sendBar _ _ :: _ => true
  | _ :: evs => sendsToBar evs

/-- One step of `foobar_task`: the statements before the loop one at a time,
then one execution of the loop body.  A send on a worker handle that has not
been assigned is recorded; what FreeRTOS does with it is not followed up. -/
def stepFoobar (s : SystemState) : SystemState :=
  match s.foobarPc with
  | 0 => { s with foobarQueueCreated := true, foobarPc := 1 }
  | 1 => { s with fooPc := some 0, foobarPc := 2 }
  | 2 => { s with barPc := some 0, foobarPc := 3 }
  | _ =>
    match foobar_task_tick s.coord with
    | none => s
    | some (c, evs) =>
      { s with coord := c,
               sendOnNullHandle := s.sendOnNullHandle
                 || (sendsToFoo evs && !s.fooQueueCreated)
                 || (sendsToBar evs && !s.barQueueCreated) }

/-- One step of `foo_task`, when it has been created: its
`xQueueCreateStatic`, then one execution of its loop body. -/
def stepFoo (s : SystemState) : SystemState :=
  match s.fooPc with
  | none => s
  | some 0 =>
    { s with fooQueueCreated := true, fooPc := some 1,
             coord := { s.coord with fooQueue := [] } }
  | some _ =>
    { s with coord := { s.coord with fooQueue := (foo_task_tick ⟨0, false⟩ s.coord.fooQueue).1 } }

/-- One step of `bar_task`, as `stepFoo`. -/
def stepBar (s : SystemState) : SystemState :=
  match s.barPc with
  | none => s
  | some 0 =>
    { s with barQueueCreated := true, barPc := some 1,
             coord := { s.coord with barQueue := [] } }
  | some _ =>
    { s with coord := { s.coord with barQueue := (bar_task_tick ⟨0, false⟩ s.coord.barQueue).1 } }

/-- One call of `serial_postFoobarData` by the feeder.  When the call reaches
the send, `foobar_getQueue` returns the static handle as it is then; a restart
brings the system back to `afterInit`. -/
def stepFeeder (rx : List Char) (s : SystemState) : SystemState :=
  match serial_postFoobarData_sent rx s.errno with
  | none =>
    if (serial_postFoobarData rx s.errno s.coord.foobarQueue).restarted then afterInit
    else { s with errno := (serial_postFoobarData rx s.errno s.coord.foobarQueue).errno }
  | some _ =>
    if s.foobarQueueCreated then
      { s with errno := (serial_postFoobarData rx s.errno s.coord.foobarQueue).errno,
               coord := { s.coord with
                 foobarQueue := (serial_postFoobarData rx s.errno s.coord.foobarQueue).queue } }
    else
      { s with errno := (serial_postFoobarData rx s.errno s.coord.foobarQueue).errno,
               getQueueNull := true }

/-- One step of the system. -/
def stepSystem (a : Actor) (s : SystemState) : SystemState :=
  match a with
  | Actor.foobar => stepFoobar s
  | Actor.foo => stepFoo s
  | Actor.bar => stepBar s
  | Actor.feeder rx => stepFeeder rx s

/-- An interleaving: the steps of a schedule one after the other. -/
def runSchedule : List Actor → SystemState → SystemState
  | [], s => s
  | a :: rest, s => runSchedule rest (stepSystem a s)

/-! ## Lemmas on `isPrime` -/

theorem noDivisorFrom_step {value i : Nat} (hi : i ≤ value / 2) :
    NoDivisorFrom value i ↔ value % i ≠ 0 ∧ NoDivisorFrom value (i + 1) := by
  constructor
  · intro h
    exact ⟨h i le_rfl hi, fun j hj hj2 => h j (by omega) hj2⟩
  · rintro ⟨h0, h⟩ j hj hj2
    rcases Nat.eq_or_lt_of_le hj with rfl | hlt
    · exact h0
    · exact h j hlt hj2

theorem noDivisorFrom_of_gt {value i : Nat} (hi : value / 2 < i) :
    NoDivisorFrom value i := by
  intro j hj hj2
  omega

/-- Loop invariant of `isPrimeLoop`: with enough fuel and a value whose half
stays below the wrap-around point, the loop returns the incoming flag
conjoined with the absence of divisors in the remaining range. -/
theorem isPrimeLoop_enough (value : Nat) (hv : value / 2 + 1 < UINT32_MOD) :
    ∀ (fuel i : Nat) (retval : Bool), (i ≤ value / 2 → value / 2 + 2 ≤ fuel + i) →
      0 < fuel →
      isPrimeLoop value fuel i retval
        = some (retval && decide (NoDivisorFrom value i)) := by
  intro fuel
  induction fuel with
  | zero => intro i retval _ h; omega
  | succ fuel ih =>
    intro i retval hfuel _
    unfold isPrimeLoop
    by_cases hle : i ≤ value / 2
    · have hlt : i + 1 < UINT32_MOD := by omega
      have hfuel2 := hfuel hle
      have hpos : 0 < fuel := by omega
      have hnext : i + 1 ≤ value / 2 → value / 2 + 2 ≤ fuel + (i + 1) := by
        intro _; omega
      rw [if_pos hle, Nat.mod_eq_of_lt hlt, ih (i + 1) _ hnext hpos]
      congr 1
      by_cases hd : value % i = 0
      · have : ¬ NoDivisorFrom value i := fun h => ((noDivisorFrom_step hle).1 h).1 hd
        simp [hd, this]
      · have : NoDivisorFrom value i ↔ NoDivisorFrom value (i + 1) := by
          rw [noDivisorFrom_step hle]; simp [hd]
        simp [hd, this]
    · rw [if_neg hle]
      have : NoDivisorFrom value i := noDivisorFrom_of_gt (by omega)
      simp [this]

/-- Trial division up to `value / 2` decides primality. -/
theorem prime_iff_noDivisorFrom (value : Nat) :
    Nat.Prime value ↔ 2 ≤ value ∧ NoDivisorFrom value 2 := by
  rw [Nat.prime_def_lt']
  constructor
  · rintro ⟨h2, h⟩
    refine ⟨h2, fun j hj hj2 hmod => ?_⟩
    exact h j hj (by omega) (Nat.dvd_of_mod_eq_zero hmod)
  · rintro ⟨h2, h⟩
    refine ⟨h2, fun m hm hlt hdvd => ?_⟩
    obtain ⟨k, rfl⟩ := hdvd
    have hk : 2 ≤ k := by
      rcases k with _ | _ | k
      · simp at h2
      · simp at hlt
      · omega
    have hle : m ≤ m * k / 2 := by
      rw [Nat.le_div_iff_mul_le (by norm_num)]
      exact Nat.mul_le_mul_left m hk
    exact h m hm hle (Nat.mul_mod_right m k)

theorem noOddDivisor_sound (n : Nat) :
    ∀ (k lo : Nat), noOddDivisor n k lo = true →
      ∀ j, j < 2 ^ k → n % (lo + 2 * j) ≠ 0 := by
  intro k
  induction k with
  | zero =>
    intro lo h j hj
    have hj0 : j = 0 := by simpa using hj
    subst hj0
    simpa [noOddDivisor] using h
  | succ k ih =>
    intro lo h j hj
    simp only [noOddDivisor, Bool.and_eq_true] at h
    by_cases hlt : j < 2 ^ k
    · exact ih lo h.1 j hlt
    · have hj2 : j - 2 ^ k < 2 ^ k := by
        rw [pow_succ] at hj; omega
      have := ih (lo + 2 * 2 ^ k) h.2 (j - 2 ^ k) hj2
      have heq : lo + 2 * 2 ^ k + 2 * (j - 2 ^ k) = lo + 2 * j := by omega
      rwa [heq] at this

/-- The largest prime below `2 ^ 32`. -/
theorem prime_4294967291 : Nat.Prime 4294967291 := by
  have hodd : noOddDivisor 4294967291 15 3 = true := by decide!
  have hsound := noOddDivisor_sound 4294967291 15 3 hodd
  rw [Nat.prime_def_le_sqrt]
  refine ⟨by norm_num, fun m hm hsq hdvd => ?_⟩
  have hmm : m * m ≤ 4294967291 := Nat.le_sqrt.1 hsq
  have hm65536 : m < 65536 := by
    by_contra hge
    have : 65536 * 65536 ≤ m * m := Nat.mul_le_mul (by omega) (by omega)
    omega
  have hmod : 4294967291 % m = 0 := Nat.mod_eq_zero_of_dvd hdvd
  rcases Nat.even_or_odd m with he | ho
  · obtain ⟨r, hr⟩ := he
    have h2 : 2 ∣ 4294967291 := Dvd.dvd.trans ⟨r, by omega⟩ hdvd
    omega
  · obtain ⟨r, hr⟩ := ho
    have hr1 : 1 ≤ r := by omega
    have := hsound (r - 1) (by norm_num; omega)
    have heq : 3 + 2 * (r - 1) = m := by omega
    rw [heq] at this
    exact this hmod

/-- For every 32-bit value `isPrime` returns, and returns whether the value is
prime. -/
theorem isPrime_eq (value : Nat) (hv : value < UINT32_MOD) :
    isPrime value = some (decide (Nat.Prime value)) := by
  have hhalf : value / 2 + 1 < UINT32_MOD := by
    simp only [UINT32_MOD] at hv ⊢; omega
  unfold isPrime isPrimeFuel
  rw [isPrimeLoop_enough value hhalf _ 2 _ (by omega) (by omega)]
  congr 1
  by_cases h1 : value ≤ 1
  · have : ¬ Nat.Prime value := fun hp => by have := hp.two_le; omega
    simp [h1, this]
  · have : Nat.Prime value ↔ NoDivisorFrom value 2 := by
      rw [prime_iff_noDivisorFrom]
      exact ⟨fun h => h.2, fun h => ⟨by omega, h⟩⟩
    simp [h1, this]

/-- C3: for every 32-bit unsigned `v`, `isPrime v` returns, and returns true
exactly when `v` is prime, which is the same as `v ≥ 2` with no divisor in
`[2, v/2]`; in particular 0, 1 and 18 are rejected and 2, 17 and 4294967291
are accepted. -/
theorem isPrime_correct (v : Nat) (hv : v < UINT32_MOD) :
    (∃ b, isPrime v = some b) ∧
    (isPrime v = some true ↔ Nat.Prime v) ∧
    (isPrime v = some true ↔ 2 ≤ v ∧ ∀ i, 2 ≤ i → i ≤ v / 2 → ¬ i ∣ v) ∧
    (isPrime v = some true ↔ 2 ≤ v ∧ ∀ d, d ∣ v → d = 1 ∨ d = v) ∧
    isPrime 0 = some false ∧ isPrime 1 = some false ∧ isPrime 2 = some true ∧
    isPrime 17 = some true ∧ isPrime 18 = some false ∧
    isPrime 4294967291 = some true := by
  have key : ∀ w, w < UINT32_MOD → (isPrime w = some true ↔ Nat.Prime w) := by
    intro w hw
    rw [isPrime_eq w hw]
    simp
  refine ⟨⟨_, isPrime_eq v hv⟩, key v hv, ?_, ?_, ?_, ?_, ?_, ?_, ?_, ?_⟩
  · rw [key v hv, prime_iff_noDivisorFrom]
    constructor
    · rintro ⟨h2, h⟩
      exact ⟨h2, fun i hi hi2 hdvd => h i hi hi2 (Nat.mod_eq_zero_of_dvd hdvd)⟩
    · rintro ⟨h2, h⟩
      exact ⟨h2, fun i hi hi2 hmod => h i hi hi2 (Nat.dvd_of_mod_eq_zero hmod)⟩
  · rw [key v hv, Nat.prime_def]
  · decide
  · decide
  · decide
  · decide
  · decide
  · exact (key 4294967291 (by decide)).2 prime_4294967291

/-- Witness for C3 at the prime 17. -/
theorem isPrime_correct_witness :
    17 < UINT32_MOD ∧ (isPrime 17 = some true ↔ Nat.Prime 17) :=
  ⟨by decide, (isPrime_correct 17 (by decide)).2.1⟩


/-! ## Lemmas on the coordinator -/

theorem u32_dec {v : Nat} (hpos : 0 < v) (hv : v < UINT32_MOD) :
    (v + (UINT32_MOD - 1)) % UINT32_MOD = v - 1 := by
  simp only [UINT32_MOD] at hv ⊢
  omega

/-- The message the coordinator builds for the value `v`. -/
theorem activeProcessing_even (s : FoobarState) (hpos : 0 < s.curValue)
    (h32 : s.curValue < UINT32_MOD) (hev : s.curValue % 2 = 0) :
    activeProcessing s = some
      ({ s with curValue := s.curValue - 1,
                fooQueue := (xQueueSend FOO_QUEUE_SIZE s.fooQueue
                  ⟨s.curValue, decide (Nat.Prime s.curValue)⟩).1 },
       [Event.sendFoo ⟨s.curValue, decide (Nat.Prime s.curValue)⟩
          (xQueueSend FOO_QUEUE_SIZE s.fooQueue
            ⟨s.curValue, decide (Nat.Prime s.curValue)⟩).2]) := by
  unfold activeProcessing
  rw [if_pos hpos, isPrime_eq _ h32]
  simp only [if_pos hev, u32_dec hpos h32]

theorem activeProcessing_odd (s : FoobarState) (hpos : 0 < s.curValue)
    (h32 : s.curValue < UINT32_MOD) (hodd : ¬ s.curValue % 2 = 0) :
    activeProcessing s = some
      ({ s with curValue := s.curValue - 1,
                barQueue := (xQueueSend BAR_QUEUE_SIZE s.barQueue
                  ⟨s.curValue, decide (Nat.Prime s.curValue)⟩).1 },
       [Event.sendBar ⟨s.curValue, decide (Nat.Prime s.curValue)⟩
          (xQueueSend BAR_QUEUE_SIZE s.barQueue
            ⟨s.curValue, decide (Nat.Prime s.curValue)⟩).2]) := by
  unfold activeProcessing
  rw [if_pos hpos, isPrime_eq _ h32]
  simp only [if_neg hodd, u32_dec hpos h32]

theorem activeProcessing_zero (s : FoobarState) (h0 : s.curValue = 0) :
    activeProcessing s = some (s, []) := by
  unfold activeProcessing
  rw [if_neg (by omega)]

theorem idleCheck_active (s : FoobarState) (hpos : 0 < s.curValue) :
    idleCheck s = (s, []) := by
  unfold idleCheck
  rw [if_neg (by omega)]

theorem idleCheck_recv (s : FoobarState) (h0 : s.curValue = 0) (n : Nat) (rest : List Nat)
    (hq : s.foobarQueue = n :: rest) :
    idleCheck s = ({ s with curValue := n, foobarQueue := rest }, [Event.receive (some n)]) := by
  unfold idleCheck
  rw [if_pos h0, hq]
  rfl

theorem idleCheck_empty (s : FoobarState) (h0 : s.curValue = 0) (hq : s.foobarQueue = []) :
    idleCheck s = (s, [Event.receive none]) := by
  unfold idleCheck
  rw [if_pos h0, hq]
  cases s
  simp_all [xQueueReceive]

/-- The first block keeps the state well formed. -/
theorem idleCheck_wf (s : FoobarState) (hwf : s.WF) : (idleCheck s).1.WF := by
  unfold idleCheck
  by_cases h0 : s.curValue = 0
  · rw [if_pos h0]
    rcases hq : s.foobarQueue with _ | ⟨n, rest⟩
    · simp only [xQueueReceive]
      exact ⟨by simp [UINT32_MOD], by simp⟩
    · simp only [xQueueReceive]
      have := hwf.2
      rw [hq] at this
      exact ⟨this n (by simp), fun x hx => this x (by simp [hx])⟩
  · rw [if_neg h0]; exact hwf

theorem idleCheck_workers (s : FoobarState) :
    (idleCheck s).1.fooQueue = s.fooQueue ∧ (idleCheck s).1.barQueue = s.barQueue := by
  unfold idleCheck
  by_cases h0 : s.curValue = 0
  · rw [if_pos h0]
    rcases s.foobarQueue with _ | ⟨n, rest⟩ <;> simp [xQueueReceive]
  · rw [if_neg h0]; exact ⟨rfl, rfl⟩

/-- What one tick does, by the counter left by the first block. -/
theorem tick_zero (s : FoobarState) (h0 : (idleCheck s).1.curValue = 0) :
    foobar_task_tick s = some ((idleCheck s).1, (idleCheck s).2) := by
  unfold foobar_task_tick
  rw [activeProcessing_zero _ h0]
  simp

theorem tick_even (s : FoobarState) (hwf : s.WF) (hpos : 0 < (idleCheck s).1.curValue)
    (hev : (idleCheck s).1.curValue % 2 = 0) :
    foobar_task_tick s = some
      ({ (idleCheck s).1 with
          curValue := (idleCheck s).1.curValue - 1,
          fooQueue := (xQueueSend FOO_QUEUE_SIZE s.fooQueue
            ⟨(idleCheck s).1.curValue, decide (Nat.Prime (idleCheck s).1.curValue)⟩).1 },
       (idleCheck s).2 ++
        [Event.sendFoo ⟨(idleCheck s).1.curValue, decide (Nat.Prime (idleCheck s).1.curValue)⟩
          (xQueueSend FOO_QUEUE_SIZE s.fooQueue
            ⟨(idleCheck s).1.curValue, decide (Nat.Prime (idleCheck s).1.curValue)⟩).2]) := by
  unfold foobar_task_tick
  rw [activeProcessing_even _ hpos (idleCheck_wf s hwf).1 hev, (idleCheck_workers s).1]

theorem tick_odd (s : FoobarState) (hwf : s.WF) (hpos : 0 < (idleCheck s).1.curValue)
    (hodd : ¬ (idleCheck s).1.curValue % 2 = 0) :
    foobar_task_tick s = some
      ({ (idleCheck s).1 with
          curValue := (idleCheck s).1.curValue - 1,
          barQueue := (xQueueSend BAR_QUEUE_SIZE s.barQueue
            ⟨(idleCheck s).1.curValue, decide (Nat.Prime (idleCheck s).1.curValue)⟩).1 },
       (idleCheck s).2 ++
        [Event.sendBar ⟨(idleCheck s).1.curValue, decide (Nat.Prime (idleCheck s).1.curValue)⟩
          (xQueueSend BAR_QUEUE_SIZE s.barQueue
            ⟨(idleCheck s).1.curValue, decide (Nat.Prime (idleCheck s).1.curValue)⟩).2]) := by
  unfold foobar_task_tick
  rw [activeProcessing_odd _ hpos (idleCheck_wf s hwf).1 hodd, (idleCheck_workers s).2]

theorem xQueueSend_full {α : Type} (q : List α) (item : α) (h : q ≠ []) :
    xQueueSend 1 q item = (q, false) := by
  unfold xQueueSend
  have : ¬ q.length < 1 := by
    cases q with
    | nil => exact absurd rfl h
    | cons a t => simp
  rw [if_neg this]

theorem xQueueSend_empty {α : Type} (item : α) :
    xQueueSend 1 ([] : List α) item = ([item], true) := by
  simp [xQueueSend]

theorem sentMsgs_append (a b : List Event) : sentMsgs (a ++ b) = sentMsgs a ++ sentMsgs b := by
  induction a with
  | nil => rfl
  | cons e t ih => cases e <;> simp [sentMsgs, ih]

theorem droppedMsgs_append (a b : List Event) :
    droppedMsgs (a ++ b) = droppedMsgs a ++ droppedMsgs b := by
  induction a with
  | nil => rfl
  | cons e t ih =>
    cases e with
    | receive r => simp [droppedMsgs, ih]
    | sendFoo m ok => cases ok <;> simp [droppedMsgs, ih]
    | sendBar m ok => cases ok <;> simp [droppedMsgs, ih]

theorem receives_append (a b : List Event) : receives (a ++ b) = receives a ++ receives b := by
  induction a with
  | nil => rfl
  | cons e t ih => cases e <;> simp [receives, ih]

/-- One tick from an active state whose worker queues are empty: the message
for the counter is delivered and the counter goes down by one. -/
theorem tick_drained_active (m : Nat) (q : List Nat) (fq bq : List foobarMsg_t)
    (hpos : 0 < m) (h32 : m < UINT32_MOD) (hq : ∀ x ∈ q, x < UINT32_MOD) :
    ∃ fq2 bq2 e, foobar_task_tick (drainWorkers ⟨m, q, fq, bq⟩)
        = some (⟨m - 1, q, fq2, bq2⟩, [e]) ∧
      sentMsgs [e] = [⟨m, decide (Nat.Prime m)⟩] ∧ droppedMsgs [e] = [] ∧
      receives [e] = [] := by
  have hwf : (drainWorkers ⟨m, q, fq, bq⟩).WF := ⟨h32, hq⟩
  have hid : idleCheck (drainWorkers ⟨m, q, fq, bq⟩) = (⟨m, q, [], []⟩, []) :=
    idleCheck_active _ hpos
  by_cases hev : m % 2 = 0
  · have h := tick_even _ hwf (by rw [hid]; exact hpos) (by rw [hid]; exact hev)
    rw [hid] at h
    refine ⟨_, _, _, h, ?_, ?_, ?_⟩ <;>
      simp [sentMsgs, droppedMsgs, receives, drainWorkers, FOO_QUEUE_SIZE, xQueueSend]
  · have h := tick_odd _ hwf (by rw [hid]; exact hpos) (by rw [hid]; exact hev)
    rw [hid] at h
    refine ⟨_, _, _, h, ?_, ?_, ?_⟩ <;>
      simp [sentMsgs, droppedMsgs, receives, drainWorkers, BAR_QUEUE_SIZE, xQueueSend]

/-- One tick from the idle state with `n > 0` at the head of the request
queue and empty worker queues: `n` is received and its message is delivered in
the same tick. -/
theorem tick_drained_recv (n : Nat) (rest : List Nat) (fq bq : List foobarMsg_t)
    (hpos : 0 < n) (h32 : n < UINT32_MOD) (hq : ∀ x ∈ rest, x < UINT32_MOD) :
    ∃ fq2 bq2 e, foobar_task_tick (drainWorkers ⟨0, n :: rest, fq, bq⟩)
        = some (⟨n - 1, rest, fq2, bq2⟩, [Event.receive (some n), e]) ∧
      sentMsgs [e] = [⟨n, decide (Nat.Prime n)⟩] ∧ droppedMsgs [e] = [] ∧
      receives [e] = [] := by
  have hwf : (drainWorkers ⟨0, n :: rest, fq, bq⟩).WF := by
    refine ⟨by simp [drainWorkers, UINT32_MOD], ?_⟩
    intro x hx
    simp only [drainWorkers, List.mem_cons] at hx
    rcases hx with rfl | hx
    · exact h32
    · exact hq x hx
  have hid : idleCheck (drainWorkers ⟨0, n :: rest, fq, bq⟩)
      = (⟨n, rest, [], []⟩, [Event.receive (some n)]) :=
    idleCheck_recv _ rfl n rest rfl
  by_cases hev : n % 2 = 0
  · have h := tick_even _ hwf (by rw [hid]; exact hpos) (by rw [hid]; exact hev)
    rw [hid] at h
    refine ⟨_, _, _, h, ?_, ?_, ?_⟩ <;>
      simp [sentMsgs, droppedMsgs, receives, drainWorkers, FOO_QUEUE_SIZE, xQueueSend]
  · have h := tick_odd _ hwf (by rw [hid]; exact hpos) (by rw [hid]; exact hev)
    rw [hid] at h
    refine ⟨_, _, _, h, ?_, ?_, ?_⟩ <;>
      simp [sentMsgs, droppedMsgs, receives, drainWorkers, BAR_QUEUE_SIZE, xQueueSend]

/-- The run of an active coordinator whose workers keep up: after `k ≤ m`
ticks from counter `m` the counter is `m - k` and the messages delivered are
those of `m, m-1, ...`, `k` of them. -/
theorem runTicks_active (q : List Nat) (hq : ∀ x ∈ q, x < UINT32_MOD) :
    ∀ (k m : Nat) (fq bq : List foobarMsg_t), k ≤ m → m < UINT32_MOD →
      ∃ s2 evs, runTicks drainWorkers k ⟨m, q, fq, bq⟩ = some (s2, evs) ∧
        s2.curValue = m - k ∧ s2.foobarQueue = q ∧
        (sentMsgs evs).map (fun x => x.value) = (countdown m).take k ∧
        (∀ x ∈ sentMsgs evs, isPrime x.value = some x.isPrime) ∧
        droppedMsgs evs = [] ∧ receives evs = [] := by
  intro k
  induction k with
  | zero =>
    intro m fq bq _ _
    exact ⟨_, _, rfl, by simp, rfl, by simp [sentMsgs], by simp [sentMsgs], rfl, rfl⟩
  | succ k ih =>
    intro m fq bq hk h32
    obtain ⟨m, rfl⟩ : ∃ m0, m = m0 + 1 := ⟨m - 1, by omega⟩
    obtain ⟨fq2, bq2, e, htick, hsent, hdrop, hrecv⟩ :=
      tick_drained_active (m + 1) q fq bq (by omega) h32 hq
    obtain ⟨s2, evs, hrun, hcur, hqueue, hvals, hprime, hdrop2, hrecv2⟩ :=
      ih m fq2 bq2 (by omega) (by omega)
    refine ⟨s2, [e] ++ evs, ?_, ?_, hqueue, ?_, ?_, ?_, ?_⟩
    · simp only [runTicks, htick, Nat.add_sub_cancel, hrun]
    · rw [hcur]; omega
    · rw [sentMsgs_append, hsent, List.map_append, hvals]
      simp [countdown]
    · intro x hx
      rw [sentMsgs_append, hsent, List.mem_append] at hx
      rcases hx with hx | hx
      · rw [List.mem_singleton] at hx
        subst hx
        exact isPrime_eq _ h32
      · exact hprime x hx
    · rw [droppedMsgs_append, hdrop, hdrop2]; rfl
    · rw [receives_append, hrecv, hrecv2]; rfl

/-- The run that starts a sequence: idle, `n > 0` at the head of the request
queue, workers keeping up. -/
theorem runTicks_start (n : Nat) (rest : List Nat) (fq bq : List foobarMsg_t)
    (hpos : 0 < n) (h32 : n < UINT32_MOD) (hq : ∀ x ∈ rest, x < UINT32_MOD)
    (k : Nat) (hk1 : 1 ≤ k) (hk : k ≤ n) :
    ∃ s2 evs, runTicks drainWorkers k ⟨0, n :: rest, fq, bq⟩ = some (s2, evs) ∧
      s2.curValue = n - k ∧ s2.foobarQueue = rest ∧
      (sentMsgs evs).map (fun x => x.value) = (countdown n).take k ∧
      (∀ x ∈ sentMsgs evs, isPrime x.value = some x.isPrime) ∧
      droppedMsgs evs = [] ∧ receives evs = [some n] := by
  obtain ⟨k, rfl⟩ : ∃ k0, k = k0 + 1 := ⟨k - 1, by omega⟩
  obtain ⟨n, rfl⟩ : ∃ n0, n = n0 + 1 := ⟨n - 1, by omega⟩
  obtain ⟨fq2, bq2, e, htick, hsent, hdrop, hrecv⟩ :=
    tick_drained_recv (n + 1) rest fq bq hpos h32 hq
  obtain ⟨s2, evs, hrun, hcur, hqueue, hvals, hprime, hdrop2, hrecv2⟩ :=
    runTicks_active rest hq k n fq2 bq2 (by omega) (by omega)
  refine ⟨s2, [Event.receive (some (n + 1)), e] ++ evs, ?_, ?_, hqueue, ?_, ?_, ?_, ?_⟩
  · simp only [runTicks, htick, Nat.add_sub_cancel, hrun]
  · rw [hcur]; omega
  · rw [sentMsgs_append]
    simp only [sentMsgs] at hsent ⊢
    rw [hsent, List.map_append, hvals]
    simp [countdown]
  · intro x hx
    rw [sentMsgs_append, List.mem_append] at hx
    simp only [sentMsgs] at hsent hx
    rcases hx with hx | hx
    · rw [hsent, List.mem_singleton] at hx
      subst hx
      exact isPrime_eq _ h32
    · exact hprime x hx
  · rw [droppedMsgs_append]
    simp only [droppedMsgs] at hdrop ⊢
    rw [hdrop, hdrop2]; rfl
  · rw [receives_append]
    simp only [receives] at hrecv ⊢
    rw [hrecv, hrecv2]; rfl

theorem countdown_length (n : Nat) : (countdown n).length = n := by
  induction n with
  | zero => rfl
  | succ n ih => simp [countdown, ih]

/-! ## The claims on the coordinator -/

/-- C1: from the idle state with `n > 0` at the head of the request queue and
workers that keep their queues empty, `n` ticks of `foobar_task` send exactly
`n` messages, with values `n, n-1, ..., 1` in that order, each carrying
`isPrime` of its value, none dropped; the counter is 0 after these `n` ticks
and positive after any smaller positive number of ticks, when the message with
value 1 has not been sent yet. -/
theorem coordinator_sequence (n : Nat) (hn : 0 < n) (h32 : n < UINT32_MOD)
    (rest : List Nat) (hrest : ∀ x ∈ rest, x < UINT32_MOD) (fq bq : List foobarMsg_t) :
    (∃ s2 evs, runTicks drainWorkers n ⟨0, n :: rest, fq, bq⟩ = some (s2, evs) ∧
      (sentMsgs evs).length = n ∧
      (sentMsgs evs).map (fun x => x.value) = countdown n ∧
      (∀ x ∈ sentMsgs evs, isPrime x.value = some x.isPrime) ∧
      droppedMsgs evs = [] ∧ s2.curValue = 0) ∧
    (∀ k, 1 ≤ k → k < n →
      ∃ s2 evs, runTicks drainWorkers k ⟨0, n :: rest, fq, bq⟩ = some (s2, evs) ∧
        (sentMsgs evs).map (fun x => x.value) = (countdown n).take k ∧
        (∀ x ∈ sentMsgs evs, 1 < x.value) ∧
        s2.curValue = n - k ∧ 0 < s2.curValue) := by
  constructor
  · obtain ⟨s2, evs, hrun, hcur, _, hvals, hprime, hdrop, _⟩ :=
      runTicks_start n rest fq bq hn h32 hrest n hn le_rfl
    have hall : (countdown n).take n = countdown n := by
      rw [List.take_of_length_le (by rw [countdown_length])]
    rw [hall] at hvals
    refine ⟨s2, evs, hrun, ?_, hvals, hprime, hdrop, by rw [hcur]; omega⟩
    have := congrArg List.length hvals
    rwa [List.length_map, countdown_length] at this
  · intro k hk1 hk
    obtain ⟨s2, evs, hrun, hcur, _, hvals, _, _, _⟩ :=
      runTicks_start n rest fq bq hn h32 hrest k hk1 (by omega)
    refine ⟨s2, evs, hrun, hvals, ?_, hcur, by rw [hcur]; omega⟩
    have hcd : ∀ (m j : Nat), j < m → ∀ y ∈ (countdown m).take j, 1 < y := by
      intro m
      induction m with
      | zero => intro j hj; omega
      | succ m ih =>
        intro j hj y hy
        cases j with
        | zero => simp at hy
        | succ j =>
          simp only [countdown, List.take_succ_cons, List.mem_cons] at hy
          rcases hy with rfl | hy
          · omega
          · exact ih j (by omega) y hy
    intro x hx
    apply hcd n k hk x.value
    rw [← hvals]
    exact List.mem_map_of_mem _ hx

/-- Witness for C1: the sequence started by 5. -/
theorem coordinator_sequence_witness :
    (0 < 5 ∧ 5 < UINT32_MOD) ∧
    ∃ s2 evs, runTicks drainWorkers 5 ⟨0, [5], [], []⟩ = some (s2, evs) ∧
      (sentMsgs evs).length = 5 ∧
      (sentMsgs evs).map (fun x => x.value) = countdown 5 ∧
      (∀ x ∈ sentMsgs evs, isPrime x.value = some x.isPrime) ∧
      droppedMsgs evs = [] ∧ s2.curValue = 0 :=
  ⟨⟨by decide, by decide⟩,
    (coordinator_sequence 5 (by decide) (by decide) [] (by simp) [] []).1⟩

/-- The end-to-end scenario of the specification, evaluated: the five ticks
after the request 5. -/
theorem runTicks_five :
    runTicks drainWorkers 5 ⟨0, [5], [], []⟩
      = some (⟨0, [], [], [⟨1, false⟩]⟩,
          [Event.receive (some 5), Event.sendBar ⟨5, true⟩ true,
           Event.sendFoo ⟨4, false⟩ true, Event.sendBar ⟨3, true⟩ true,
           Event.sendFoo ⟨2, true⟩ true, Event.sendBar ⟨1, false⟩ true]) := by
  decide

/-- C2: in every tick whose counter after the optional receive is `v > 0`
the message `{v, isPrime v}` is offered to the Foo queue, the Bar queue being
left alone, when `v` is even, and to the Bar queue, the Foo queue being left
alone, when `v` is odd; whatever a tick adds to the Bar queue has an odd value
and whatever it adds to the Foo queue an even one. -/
theorem parity_routing (s : FoobarState) (hwf : s.WF) :
    ∃ s2 evs, foobar_task_tick s = some (s2, evs) ∧
      (∀ v, (idleCheck s).1.curValue = v → 0 < v →
        ∃ p, isPrime v = some p ∧
          (v % 2 = 0 →
            sentMsgs evs = [⟨v, p⟩] ∧
            evs = (idleCheck s).2 ++
              [Event.sendFoo ⟨v, p⟩ (xQueueSend FOO_QUEUE_SIZE s.fooQueue ⟨v, p⟩).2] ∧
            s2.fooQueue = (xQueueSend FOO_QUEUE_SIZE s.fooQueue ⟨v, p⟩).1 ∧
            s2.barQueue = s.barQueue) ∧
          (v % 2 = 1 →
            sentMsgs evs = [⟨v, p⟩] ∧
            evs = (idleCheck s).2 ++
              [Event.sendBar ⟨v, p⟩ (xQueueSend BAR_QUEUE_SIZE s.barQueue ⟨v, p⟩).2] ∧
            s2.barQueue = (xQueueSend BAR_QUEUE_SIZE s.barQueue ⟨v, p⟩).1 ∧
            s2.fooQueue = s.fooQueue)) ∧
      (∀ m ok, Event.sendBar m ok ∈ evs → m.value % 2 = 1) ∧
      (∀ m ok, Event.sendFoo m ok ∈ evs → m.value % 2 = 0) ∧
      (∀ m ∈ s2.barQueue, m ∈ s.barQueue ∨ m.value % 2 = 1) ∧
      (∀ m ∈ s2.fooQueue, m ∈ s.fooQueue ∨ m.value % 2 = 0) := by
  have hw := idleCheck_workers s
  have hidle : ∀ e ∈ (idleCheck s).2, ∃ r, e = Event.receive r := by
    intro e he
    by_cases h0 : s.curValue = 0
    · rcases hq : s.foobarQueue with _ | ⟨n, rest⟩
      · rw [idleCheck_empty s h0 hq, List.mem_singleton] at he
        exact ⟨_, he⟩
      · rw [idleCheck_recv s h0 n rest hq, List.mem_singleton] at he
        exact ⟨_, he⟩
    · rw [idleCheck_active s (by omega)] at he; simp at he
  have hsent0 : sentMsgs (idleCheck s).2 = [] := by
    unfold idleCheck
    by_cases h0 : s.curValue = 0
    · rw [if_pos h0]
      rcases s.foobarQueue with _ | ⟨n, rest⟩ <;> simp [xQueueReceive, sentMsgs]
    · rw [if_neg h0]; rfl
  rcases Nat.eq_zero_or_pos (idleCheck s).1.curValue with h0 | hpos
  · refine ⟨_, _, tick_zero s h0, ?_, ?_, ?_, ?_, ?_⟩
    · intro v hv hvpos; omega
    · intro m ok hmem
      obtain ⟨r, hr⟩ := hidle _ hmem
      cases hr
    · intro m ok hmem
      obtain ⟨r, hr⟩ := hidle _ hmem
      cases hr
    · intro m hm; left; rwa [hw.2] at hm
    · intro m hm; left; rwa [hw.1] at hm
  · have h32 := (idleCheck_wf s hwf).1
    by_cases hev : (idleCheck s).1.curValue % 2 = 0
    · refine ⟨_, _, tick_even s hwf hpos hev, ?_, ?_, ?_, ?_, ?_⟩
      · intro v hv _
        subst hv
        refine ⟨_, isPrime_eq _ h32, fun _ => ⟨?_, rfl, rfl, hw.2⟩, fun h1 => by omega⟩
        rw [sentMsgs_append, hsent0]; rfl
      · intro m ok hmem
        rw [List.mem_append] at hmem
        rcases hmem with hmem | hmem
        · obtain ⟨r, hr⟩ := hidle _ hmem
          cases hr
        · simp at hmem
      · intro m ok hmem
        rw [List.mem_append] at hmem
        rcases hmem with hmem | hmem
        · obtain ⟨r, hr⟩ := hidle _ hmem
          cases hr
        · simp only [List.mem_singleton, Event.sendFoo.injEq] at hmem
          rw [hmem.1]; exact hev
      · intro m hm; left
        simpa [hw.2] using hm
      · intro m hm
        simp only [xQueueSend] at hm
        split at hm
        · rw [List.mem_append, List.mem_singleton] at hm
          rcases hm with hm | hm
          · exact Or.inl hm
          · right; rw [hm]; exact hev
        · exact Or.inl hm
    · refine ⟨_, _, tick_odd s hwf hpos hev, ?_, ?_, ?_, ?_, ?_⟩
      · intro v hv _
        subst hv
        refine ⟨_, isPrime_eq _ h32, fun h1 => absurd h1 hev, fun _ => ⟨?_, rfl, rfl, hw.1⟩⟩
        rw [sentMsgs_append, hsent0]; rfl
      · intro m ok hmem
        rw [List.mem_append] at hmem
        rcases hmem with hmem | hmem
        · obtain ⟨r, hr⟩ := hidle _ hmem
          cases hr
        · simp only [List.mem_singleton, Event.sendBar.injEq] at hmem
          rw [hmem.1]; show (idleCheck s).1.curValue % 2 = 1; omega
      · intro m ok hmem
        rw [List.mem_append] at hmem
        rcases hmem with hmem | hmem
        · obtain ⟨r, hr⟩ := hidle _ hmem
          cases hr
        · simp at hmem
      · intro m hm
        simp only [xQueueSend] at hm
        split at hm
        · rw [List.mem_append, List.mem_singleton] at hm
          rcases hm with hm | hm
          · exact Or.inl hm
          · right; rw [hm]; show (idleCheck s).1.curValue % 2 = 1; omega
        · exact Or.inl hm
      · intro m hm; left
        simpa [hw.1] using hm

/-- Witness for C2: the tick that receives 4 offers it to the Foo queue. -/
theorem parity_routing_witness :
    FoobarState.WF ⟨0, [4], [], []⟩ ∧
    ∃ s2 evs, foobar_task_tick ⟨0, [4], [], []⟩ = some (s2, evs) ∧
      (∀ m ok, Event.sendBar m ok ∈ evs → m.value % 2 = 1) ∧
      (∀ m ok, Event.sendFoo m ok ∈ evs → m.value % 2 = 0) :=
  ⟨by decide,
    let ⟨s2, evs, h, _, hb, hf, _⟩ := parity_routing ⟨0, [4], [], []⟩ (by decide)
    ⟨s2, evs, h, hb, hf⟩⟩

/-- The counter left by the first block does not depend on the worker
queues. -/
theorem idleCheck_frame (s : FoobarState) (fq bq : List foobarMsg_t) :
    (idleCheck { s with fooQueue := fq, barQueue := bq }).1.curValue
      = (idleCheck s).1.curValue := by
  unfold idleCheck
  by_cases h0 : s.curValue = 0
  · simp only [if_pos h0]
    rcases s.foobarQueue with _ | ⟨n, rest⟩ <;> simp [xQueueReceive]
  · simp only [if_neg h0]

/-- Every tick of a well-formed state returns, and takes one off a positive
counter. -/
theorem tick_curValue (s : FoobarState) (hwf : s.WF) :
    ∃ t, foobar_task_tick s = some t ∧ t.1.curValue = (idleCheck s).1.curValue - 1 := by
  rcases Nat.eq_zero_or_pos (idleCheck s).1.curValue with h0 | hpos
  · exact ⟨_, tick_zero s h0, by simp [h0]⟩
  · by_cases hev : (idleCheck s).1.curValue % 2 = 0
    · exact ⟨_, tick_even s hwf hpos hev, rfl⟩
    · exact ⟨_, tick_odd s hwf hpos hev, rfl⟩

/-- A tick whose counter after the first block is positive: exactly one send
follows the events of the first block, it carries the message for that counter,
the request queue is the one the first block left, and the counter goes down by
one. -/
theorem tick_send (s : FoobarState) (hwf : s.WF) (hpos : 0 < (idleCheck s).1.curValue) :
    ∃ s2 e, foobar_task_tick s = some (s2, (idleCheck s).2 ++ [e]) ∧
      sentMsgs [e] = [⟨(idleCheck s).1.curValue,
        decide (Nat.Prime (idleCheck s).1.curValue)⟩] ∧
      receives [e] = [] ∧
      s2.foobarQueue = (idleCheck s).1.foobarQueue ∧
      s2.curValue = (idleCheck s).1.curValue - 1 := by
  by_cases hev : (idleCheck s).1.curValue % 2 = 0
  · exact ⟨_, _, tick_even s hwf hpos hev, rfl, rfl, rfl, rfl⟩
  · exact ⟨_, _, tick_odd s hwf hpos hev, rfl, rfl, rfl, rfl⟩

/-- C6: a tick with counter `v > 0` (after the optional receive) whose
destination queue already holds a message: the send fails, the message is
dropped, both worker queues stay as they were, and the counter after the tick
is `v - 1`, as it is for any other contents of the worker queues. -/
theorem backpressure (s : FoobarState) (hwf : s.WF) (v : Nat)
    (hv : (idleCheck s).1.curValue = v) (hpos : 0 < v) (hfull : destQueue s v ≠ []) :
    ∃ s2 evs p, isPrime v = some p ∧ foobar_task_tick s = some (s2, evs) ∧
      evs = (idleCheck s).2 ++
        [if v % 2 = 0 then Event.sendFoo ⟨v, p⟩ false else Event.sendBar ⟨v, p⟩ false] ∧
      s2.fooQueue = s.fooQueue ∧ s2.barQueue = s.barQueue ∧ s2.curValue = v - 1 ∧
      (∀ fq bq, ∃ t, foobar_task_tick { s with fooQueue := fq, barQueue := bq } = some t ∧
        t.1.curValue = v - 1) := by
  subst hv
  have hw := idleCheck_workers s
  have h32 := (idleCheck_wf s hwf).1
  have hany : ∀ fq bq, ∃ t,
      foobar_task_tick { s with fooQueue := fq, barQueue := bq } = some t ∧
        t.1.curValue = (idleCheck s).1.curValue - 1 := by
    intro fq bq
    obtain ⟨t, ht, hc⟩ := tick_curValue { s with fooQueue := fq, barQueue := bq } ⟨hwf.1, hwf.2⟩
    exact ⟨t, ht, by rw [hc, idleCheck_frame]⟩
  by_cases hev : (idleCheck s).1.curValue % 2 = 0
  · have hne : s.fooQueue ≠ [] := by simpa [destQueue, hev] using hfull
    have hsend := xQueueSend_full s.fooQueue
      (⟨(idleCheck s).1.curValue, decide (Nat.Prime (idleCheck s).1.curValue)⟩ : foobarMsg_t) hne
    have ht := tick_even s hwf hpos hev
    simp only [FOO_QUEUE_SIZE, hsend] at ht
    exact ⟨_, _, _, isPrime_eq _ h32, ht, by rw [if_pos hev], rfl, hw.2, rfl, hany⟩
  · have hne : s.barQueue ≠ [] := by simpa [destQueue, hev] using hfull
    have hsend := xQueueSend_full s.barQueue
      (⟨(idleCheck s).1.curValue, decide (Nat.Prime (idleCheck s).1.curValue)⟩ : foobarMsg_t) hne
    have ht := tick_odd s hwf hpos hev
    simp only [BAR_QUEUE_SIZE, hsend] at ht
    exact ⟨_, _, _, isPrime_eq _ h32, ht, by rw [if_neg hev], hw.1, rfl, rfl, hany⟩

/-- Witness for C6: counter 4 with a message still waiting in the Foo
queue. -/
theorem backpressure_witness :
    (FoobarState.WF ⟨4, [], [⟨6, false⟩], []⟩ ∧
      (idleCheck ⟨4, [], [⟨6, false⟩], []⟩).1.curValue = 4 ∧ 0 < 4 ∧
      destQueue ⟨4, [], [⟨6, false⟩], []⟩ 4 ≠ []) ∧
    ∃ s2 evs p, isPrime 4 = some p ∧
      foobar_task_tick ⟨4, [], [⟨6, false⟩], []⟩ = some (s2, evs) ∧
      s2.fooQueue = [⟨6, false⟩] ∧ s2.barQueue = [] ∧ s2.curValue = 3 :=
  ⟨⟨by decide, by decide, by decide, by decide⟩,
    let ⟨s2, evs, p, hp, ht, _, hf, hb, hc, _⟩ :=
      backpressure ⟨4, [], [⟨6, false⟩], []⟩ (by decide) 4 (by decide) (by decide) (by decide)
    ⟨s2, evs, p, hp, ht, hf, hb, hc⟩⟩

/-- C7, as stated, fails: the tick that dequeues 5 from the request queue
also sends the message for 5 to the Bar queue, and leaves the counter at 4. -/
theorem tick_not_exclusive :
    foobar_task_tick ⟨0, [5], [], []⟩
      = some (⟨4, [], [], [⟨5, true⟩]⟩,
          [Event.receive (some 5), Event.sendBar ⟨5, true⟩ true]) := by
  decide

/-- C7, amended: a tick performs at most one receive on the request queue and
at most one send to a worker queue; a tick that starts with a positive counter
performs no receive; a tick that starts with counter 0 and dequeues `n > 0`
sends the message `{n, isPrime n}` in that same tick and ends with the counter
at `n - 1`; a tick whose receive finds the queue empty sends nothing. -/
theorem tick_receive_then_send (s : FoobarState) (hwf : s.WF) :
    ∃ s2 evs, foobar_task_tick s = some (s2, evs) ∧
      (receives evs).length ≤ 1 ∧ (sentMsgs evs).length ≤ 1 ∧
      (0 < s.curValue → receives evs = [] ∧ s2.foobarQueue = s.foobarQueue) ∧
      (∀ n rest, s.curValue = 0 → s.foobarQueue = n :: rest → 0 < n →
        receives evs = [some n] ∧ s2.foobarQueue = rest ∧
        (∃ p, isPrime n = some p ∧ sentMsgs evs = [⟨n, p⟩]) ∧ s2.curValue = n - 1) ∧
      (s.curValue = 0 → s.foobarQueue = [] →
        receives evs = [none] ∧ sentMsgs evs = [] ∧ s2.curValue = 0) := by
  by_cases h0 : s.curValue = 0
  · rcases hq : s.foobarQueue with _ | ⟨n, rest⟩
    · have hid := idleCheck_empty s h0 hq
      have ht := tick_zero s (by rw [hid]; exact h0)
      rw [hid] at ht
      refine ⟨_, _, ht, by simp [receives], by simp [sentMsgs], fun h => by omega, ?_, ?_⟩
      · intro n rest _ hq2; cases hq2
      · intro _ _; exact ⟨rfl, rfl, h0⟩
    · have hid := idleCheck_recv s h0 n rest hq
      rcases Nat.eq_zero_or_pos n with hn0 | hnpos
      · have ht := tick_zero s (by rw [hid]; exact hn0)
        rw [hid] at ht
        refine ⟨_, _, ht, by simp [receives], by simp [sentMsgs], fun h => by omega, ?_, ?_⟩
        · intro n2 rest2 _ hq2 hpos2
          cases hq2
          omega
        · intro _ hq2; cases hq2
      · obtain ⟨s2, e, ht, hsent, hrecv, hqueue, hcur⟩ :=
          tick_send s hwf (by rw [hid]; exact hnpos)
        rw [hid] at ht hsent hqueue hcur
        have hr : receives ([Event.receive (some n)] ++ [e]) = [some n] := by
          rw [receives_append, hrecv]; rfl
        have hs : sentMsgs ([Event.receive (some n)] ++ [e])
            = [⟨n, decide (Nat.Prime n)⟩] := by
          rw [sentMsgs_append, hsent]; rfl
        refine ⟨_, _, ht, by rw [hr]; simp, by rw [hs]; simp, fun h => by omega, ?_, ?_⟩
        · intro n2 rest2 _ hq2 _
          cases hq2
          exact ⟨hr, hqueue, ⟨_, isPrime_eq n (hwf.2 n (by rw [hq]; simp)), hs⟩, hcur⟩
        · intro _ hq2; cases hq2
  · have hpos : 0 < s.curValue := by omega
    have hid := idleCheck_active s hpos
    obtain ⟨s2, e, ht, hsent, hrecv, hqueue, hcur⟩ :=
      tick_send s hwf (by rw [hid]; exact hpos)
    rw [hid] at ht hqueue
    have hr : receives ([] ++ [e]) = [] := by rw [receives_append, hrecv]; rfl
    have hs : (sentMsgs ([] ++ [e])).length ≤ 1 := by
      rw [sentMsgs_append, hsent]; simp [sentMsgs]
    refine ⟨_, _, ht, by rw [hr]; simp, hs, fun _ => ⟨hr, hqueue⟩, ?_, ?_⟩
    · intro n rest h; omega
    · intro h; omega

/-- Witness for C7 as amended, at the idle state with 5 queued. -/
theorem tick_receive_then_send_witness :
    FoobarState.WF ⟨0, [5], [], []⟩ ∧
    ∃ s2 evs, foobar_task_tick ⟨0, [5], [], []⟩ = some (s2, evs) ∧
      (receives evs).length ≤ 1 ∧ (sentMsgs evs).length ≤ 1 :=
  ⟨by decide,
    let ⟨s2, evs, h, hr, hs, _⟩ := tick_receive_then_send ⟨0, [5], [], []⟩ (by decide)
    ⟨s2, evs, h, hr, hs⟩⟩

/-- C8: when the counter is 0 and the request queue is empty, one tick leaves
the counter, the request queue and both worker queues as they were and sends
nothing, the only queue operation being the failed receive; so any number of
ticks leaves the state as it was. -/
theorem idle_fixed_point (s : FoobarState) (h0 : s.curValue = 0) (hq : s.foobarQueue = []) :
    foobar_task_tick s = some (s, [Event.receive none]) ∧
    ∀ k, ∃ evs, runTicks id k s = some (s, evs) ∧ sentMsgs evs = [] ∧
      ∀ e ∈ evs, e = Event.receive none := by
  have hid := idleCheck_empty s h0 hq
  have ht : foobar_task_tick s = some (s, [Event.receive none]) := by
    have := tick_zero s (by rw [hid]; exact h0)
    rwa [hid] at this
  refine ⟨ht, fun k => ?_⟩
  induction k with
  | zero => exact ⟨[], rfl, rfl, by simp⟩
  | succ k ih =>
    obtain ⟨evs, hrun, hsent, hall⟩ := ih
    refine ⟨[Event.receive none] ++ evs, ?_, ?_, ?_⟩
    · simp only [runTicks, id, ht, hrun]
    · rw [sentMsgs_append, hsent]; rfl
    · intro e he
      rw [List.mem_append, List.mem_singleton] at he
      rcases he with he | he
      · exact he
      · exact hall e he

/-- Witness for C8: the initial state of the coordinator, with messages still
waiting in the worker queues. -/
theorem idle_fixed_point_witness :
    ((⟨0, [], [⟨4, false⟩], [⟨5, true⟩]⟩ : FoobarState).curValue = 0 ∧
      (⟨0, [], [⟨4, false⟩], [⟨5, true⟩]⟩ : FoobarState).foobarQueue = []) ∧
    foobar_task_tick ⟨0, [], [⟨4, false⟩], [⟨5, true⟩]⟩
      = some (⟨0, [], [⟨4, false⟩], [⟨5, true⟩]⟩, [Event.receive none]) :=
  ⟨⟨rfl, rfl⟩, (idle_fixed_point ⟨0, [], [⟨4, false⟩], [⟨5, true⟩]⟩ rfl rfl).1⟩

/-! ## Lemmas on the feeder -/

theorem isdigit_not_isspace {c : Char} (h : isdigit c = true) : isspace c = false := by
  simp only [isdigit, Bool.and_eq_true, decide_eq_true_eq] at h
  simp only [isspace, Bool.or_eq_false_iff, Bool.and_eq_false_iff, decide_eq_false_iff_not]
  omega

theorem isdigit_ne_minus {c : Char} (h : isdigit c = true) : c ≠ '-' := by
  rintro rfl
  revert h
  decide

theorem isdigit_ne_plus {c : Char} (h : isdigit c = true) : c ≠ '+' := by
  rintro rfl
  revert h
  decide

theorem dropWhile_isspace_append (ws t : List Char) (hws : ∀ c ∈ ws, isspace c = true)
    (ht : ∀ c u, t = c :: u → isspace c = false) :
    (ws ++ t).dropWhile isspace = t := by
  induction ws with
  | nil =>
    cases t with
    | nil => rfl
    | cons c u => simp [List.dropWhile_cons, ht c u rfl]
  | cons w ws ih =>
    have hw : isspace w = true := hws w (by simp)
    simp only [List.cons_append, List.dropWhile_cons, hw, if_true]
    exact ih (fun c hc => hws c (by simp [hc]))

theorem takeWhile_isdigit_all (ds : List Char) (h : ∀ c ∈ ds, isdigit c = true) :
    ds.takeWhile isdigit = ds ∧ ds.dropWhile isdigit = [] := by
  induction ds with
  | nil => exact ⟨rfl, rfl⟩
  | cons d ds ih =>
    have hd : isdigit d = true := h d (by simp)
    have := ih (fun c hc => h c (by simp [hc]))
    simp [List.takeWhile_cons, List.dropWhile_cons, hd, this.1, this.2]

theorem splitSign_numeral (sign digits : List Char)
    (hs : sign = [] ∨ sign = ['+'] ∨ sign = ['-']) (hd : IsDecimalString digits) :
    splitSign (sign ++ digits) = (decide (sign = ['-']), digits) := by
  obtain ⟨hne, hall⟩ := hd
  rcases hs with rfl | rfl | rfl
  · cases digits with
    | nil => exact absurd rfl hne
    | cons d ds =>
      have hd : isdigit d = true := hall d (by simp)
      simp [splitSign, isdigit_ne_minus hd, isdigit_ne_plus hd]
  · simp [splitSign]
  · simp [splitSign]

/-- The result of `strtol` on a text it converts completely. -/
theorem strtol_numeral (errno : Nat) (buf ws sign digits : List Char)
    (h : IsStrtolNumeral buf ws sign digits) :
    strtol errno buf =
      if sign = ['-'] then
        (if (2147483648 : Nat) < decimalValue digits then (LONG_MIN, [], ERANGE)
          else (-(decimalValue digits : Int), [], errno))
      else
        (if (2147483647 : Nat) < decimalValue digits then (LONG_MAX, [], ERANGE)
          else ((decimalValue digits : Int), [], errno)) := by
  obtain ⟨hbuf, hws, hs, hd⟩ := h
  have hhead : ∀ c u, sign ++ digits = c :: u → isspace c = false := by
    intro c u hcu
    rcases hs with rfl | rfl | rfl
    · exact isdigit_not_isspace (hd.2 c (by rw [List.nil_append] at hcu; simp [hcu]))
    · simp only [List.singleton_append, List.cons.injEq] at hcu
      rw [← hcu.1]; decide
    · simp only [List.singleton_append, List.cons.injEq] at hcu
      rw [← hcu.1]; decide
  have hdrop : buf.dropWhile isspace = sign ++ digits := by
    rw [hbuf, List.append_assoc]
    exact dropWhile_isspace_append ws _ hws hhead
  have htd := takeWhile_isdigit_all digits hd.2
  unfold strtol
  simp only [hdrop, splitSign_numeral sign digits hs hd, htd.1, htd.2, if_neg hd.1,
    decide_eq_true_eq]

theorem splitSign_decomp (s : List Char) :
    ∃ sign, (sign = [] ∨ sign = ['+'] ∨ sign = ['-']) ∧ s = sign ++ (splitSign s).2 := by
  cases s with
  | nil => exact ⟨[], Or.inl rfl, rfl⟩
  | cons c t =>
    by_cases hm : c = '-'
    · exact ⟨['-'], Or.inr (Or.inr rfl), by simp [splitSign, hm]⟩
    · by_cases hp : c = '+'
      · exact ⟨['+'], Or.inr (Or.inl rfl), by simp [splitSign, hp]⟩
      · exact ⟨[], Or.inl rfl, by simp [splitSign, hm, hp]⟩

/-- Every text splits into white space, a sign, digits and a remainder, the
parts `strtol` works on. -/
theorem strtol_parts (buf : List Char) :
    ∃ ws sign, (∀ c ∈ ws, isspace c = true) ∧ (sign = [] ∨ sign = ['+'] ∨ sign = ['-']) ∧
      buf = ws ++ sign ++
        ((splitSign (buf.dropWhile isspace)).2.takeWhile isdigit ++
          (splitSign (buf.dropWhile isspace)).2.dropWhile isdigit) ∧
      ∀ c ∈ (splitSign (buf.dropWhile isspace)).2.takeWhile isdigit, isdigit c = true := by
  obtain ⟨sign, hs, hsplit⟩ := splitSign_decomp (buf.dropWhile isspace)
  refine ⟨buf.takeWhile isspace, sign, fun c hc => List.mem_takeWhile_imp hc, hs, ?_,
    fun c hc => List.mem_takeWhile_imp hc⟩
  rw [List.takeWhile_append_dropWhile, List.append_assoc, ← hsplit,
    List.takeWhile_append_dropWhile]

theorem strtol_endptr (errno : Nat) (buf : List Char)
    (h : (splitSign (buf.dropWhile isspace)).2.takeWhile isdigit ≠ []) :
    (strtol errno buf).2.1 = (splitSign (buf.dropWhile isspace)).2.dropWhile isdigit := by
  unfold strtol
  simp only [if_neg h]
  split <;> split <;> rfl

theorem strtol_no_digits (errno : Nat) (buf : List Char)
    (h : (splitSign (buf.dropWhile isspace)).2.takeWhile isdigit = []) :
    strtol errno buf = (0, buf, errno) := by
  unfold strtol
  simp only [if_pos h]

theorem toUint32_lt (x : Int) : toUint32 x < UINT32_MOD := by
  unfold toUint32 UINT32_MOD
  omega

theorem toUint32_natCast (n : Nat) (h : n < UINT32_MOD) : toUint32 (n : Int) = n := by
  unfold toUint32
  unfold UINT32_MOD at *
  omega

/-- The result of `serial_validateRxData` on a text `strtol` converts
completely: it is accepted when `errno` was 0 and the number is in the range
of `long`. -/
theorem validate_numeral (errno : Nat) (buf ws sign digits : List Char)
    (h : IsStrtolNumeral buf ws sign digits) :
    (LONG_MIN ≤ signedValue sign digits ∧ signedValue sign digits ≤ LONG_MAX →
      serial_validateRxData errno buf
        = (decide (errno = 0), toUint32 (signedValue sign digits), errno)) ∧
    (¬ (LONG_MIN ≤ signedValue sign digits ∧ signedValue sign digits ≤ LONG_MAX) →
      (serial_validateRxData errno buf).1 = false ∧
      (serial_validateRxData errno buf).2.2 = ERANGE) := by
  unfold serial_validateRxData
  rw [strtol_numeral errno buf ws sign digits h]
  unfold signedValue LONG_MIN LONG_MAX
  by_cases hs : sign = ['-']
  · simp only [if_pos hs]
    by_cases hr : (2147483648 : Nat) < decimalValue digits
    · simp only [if_pos hr]
      refine ⟨fun hin => by omega, fun _ => by simp [ERANGE]⟩
    · simp only [if_neg hr]
      refine ⟨fun _ => by simp [charAt], fun hout => by omega⟩
  · simp only [if_neg hs]
    by_cases hr : (2147483647 : Nat) < decimalValue digits
    · simp only [if_pos hr]
      refine ⟨fun hin => by omega, fun _ => by simp [ERANGE]⟩
    · simp only [if_neg hr]
      refine ⟨fun _ => by simp [charAt], fun hout => by omega⟩

/-- A text that `serial_validateRxData` accepts, when it is not empty and has
no NUL inside, is one that `strtol` converts completely. -/
theorem validate_accepts_numeral (errno : Nat) (buf : List Char) (hne : buf ≠ [])
    (hnul : ∀ c ∈ buf, c ≠ Char.ofNat 0)
    (hok : (serial_validateRxData errno buf).1 = true) :
    ∃ ws sign digits, IsStrtolNumeral buf ws sign digits := by
  obtain ⟨ws, sign, hws, hs, hbuf, hdig⟩ := strtol_parts buf
  have hcharAt : ∀ t : List Char, (∀ c ∈ t, c ∈ buf) → t ≠ [] → charAt t ≠ Char.ofNat 0 := by
    intro t ht hne2
    cases t with
    | nil => exact absurd rfl hne2
    | cons c u => exact hnul c (ht c (by simp))
  have hend : charAt (strtol errno buf).2.1 = Char.ofNat 0 := by
    simp only [serial_validateRxData, decide_eq_true_eq] at hok
    exact hok.2
  by_cases hd : (splitSign (buf.dropWhile isspace)).2.takeWhile isdigit = []
  · rw [strtol_no_digits errno buf hd] at hend
    exact absurd hend (hcharAt buf (fun c hc => hc) hne)
  · rw [strtol_endptr errno buf hd] at hend
    have hrest : (splitSign (buf.dropWhile isspace)).2.dropWhile isdigit = [] := by
      by_contra hne2
      refine hcharAt _ (fun c hc => ?_) hne2 hend
      rw [hbuf]
      exact List.mem_append_right _ (List.mem_append_right _ hc)
    rw [hrest, List.append_nil] at hbuf
    exact ⟨ws, sign, _, hbuf, hws, hs, hd, hdig⟩

/-! ## The claims on the workers -/

/-- C4: the workers print on the wrong branch of the receive.  When the queue
holds a message, the tick removes it and writes nothing; when the queue is
empty, the tick writes the text rendered from the uninitialised local `msg`.
So a tick writes exactly when the receive returned no message. -/
theorem worker_receive_inverted (msg m : foobarMsg_t) (q : List foobarMsg_t) :
    foo_task_tick msg (m :: q) = (q, []) ∧
    foo_task_tick msg [] = ([], [String.mk (renderMsg "Foo ".toList msg)]) ∧
    bar_task_tick msg (m :: q) = (q, []) ∧
    bar_task_tick msg [] = ([], [String.mk (renderMsg "Bar ".toList msg)]) ∧
    foo_task_tick ⟨7, true⟩ [⟨4, false⟩] = ([], []) ∧
    foo_task_tick ⟨7, true⟩ [] = ([], ["Foo 7 Prime"]) ∧
    bar_task_tick ⟨8, false⟩ [⟨5, true⟩] = ([], []) ∧
    bar_task_tick ⟨8, false⟩ [] = ([], ["Bar 8"]) := by
  refine ⟨rfl, rfl, rfl, rfl, ?_, ?_, ?_, ?_⟩ <;> decide

/-- C5: the text built for a ten-digit value loses its last digit, because
`snprintf` with bound 14 stores 13 characters, and a value from `2 ^ 31` on is
printed as a negative number by `%ld`; shorter values come out as the claim
says. -/
theorem render_ten_digits :
    String.mk (renderMsg "Foo ".toList ⟨1000000000, false⟩) = "Foo 100000000" ∧
    expectedText "Foo" ⟨1000000000, false⟩ = "Foo 1000000000" ∧
    String.mk (renderMsg "Bar ".toList ⟨2147483647, true⟩) = "Bar 214748364 Prime" ∧
    expectedText "Bar" ⟨2147483647, true⟩ = "Bar 2147483647 Prime" ∧
    String.mk (renderMsg "Bar ".toList ⟨4294967295, false⟩) = "Bar -1" ∧
    expectedText "Bar" ⟨4294967295, false⟩ = "Bar 4294967295" ∧
    String.mk (renderMsg "Bar ".toList ⟨5, true⟩) = "Bar 5 Prime" ∧
    String.mk (renderMsg "Foo ".toList ⟨4, false⟩) = "Foo 4" := by
  decide

/-- Below ten digits the text a worker builds is the label followed by the
decimal digits of the value, and `" Prime"` when the flag is set: the bound of
`snprintf` cuts nothing and `%ld` reads a non-negative number. -/
theorem render_short (label : List Char) (hl : label.length = 4) (v : Nat)
    (hv : v < 1000000000) (p : Bool) :
    renderMsg label ⟨v, p⟩
      = label ++ Nat.toDigits 10 v ++ (if p then " Prime".toList else []) := by
  have hmod : v % UINT32_MOD = v := Nat.mod_eq_of_lt (by unfold UINT32_MOD; omega)
  have hfmt : formatLd v = Nat.toDigits 10 v := by
    unfold formatLd
    rw [hmod, if_pos (by omega)]
  have hlen : (Nat.toDigits 10 v).length ≤ 9 :=
    Nat.toDigitsCore_length 10 (by decide) (v + 1) v 9 (by omega) (by decide)
  have hsn : snprintf 14 label v = label ++ Nat.toDigits 10 v := by
    unfold snprintf
    rw [hfmt]
    exact List.take_of_length_le (by rw [List.length_append]; omega)
  unfold renderMsg
  cases p
  · simp [hsn]
  · simp only [if_true, hsn, strncat]
    rfl

/-! ## The claims on the feeder -/

/-- C9, as stated, fails: with `errno` 0 the buffers `"-5"` and `" 5"` are
accepted although they are not strings of decimal digits only, `"-5"` being
stored as 4294967291, and the digit string `"3000000000"` is rejected, being
out of the range of `long`. -/
theorem validate_not_digits_only :
    serial_validateRxData 0 "-5".toList = (true, 4294967291, 0) ∧
    ¬ IsDecimalString "-5".toList ∧
    serial_validateRxData 0 " 5".toList = (true, 5, 0) ∧
    ¬ IsDecimalString " 5".toList ∧
    IsDecimalString "3000000000".toList ∧
    (serial_validateRxData 0 "3000000000".toList).1 = false := by
  decide

/-- C9, amended: with `errno` 0 at entry, a non-empty receive buffer is
accepted exactly when it is what `strtol` converts completely, that is white
space, an optional sign and at least one decimal digit with nothing after, and
the integer it denotes is in the range of `long`; the value stored is then that
integer converted to `uint32_t`; a string of digits only denoting at most
2147483647 is accepted and stored as the number it denotes. -/
theorem validate_iff_strtol_numeral (buf : List Char) (hne : buf ≠ [])
    (hnul : ∀ c ∈ buf, c ≠ Char.ofNat 0) :
    ((serial_validateRxData 0 buf).1 = true ↔
      ∃ ws sign digits, IsStrtolNumeral buf ws sign digits ∧
        LONG_MIN ≤ signedValue sign digits ∧ signedValue sign digits ≤ LONG_MAX) ∧
    (∀ ws sign digits, IsStrtolNumeral buf ws sign digits →
      (serial_validateRxData 0 buf).1 = true →
      (serial_validateRxData 0 buf).2.1 = toUint32 (signedValue sign digits)) ∧
    (IsDecimalString buf → decimalValue buf ≤ 2147483647 →
      serial_validateRxData 0 buf = (true, decimalValue buf, 0)) := by
  have hval : ∀ ws sign digits, IsStrtolNumeral buf ws sign digits →
      (serial_validateRxData 0 buf).1 = true →
      (LONG_MIN ≤ signedValue sign digits ∧ signedValue sign digits ≤ LONG_MAX) ∧
      (serial_validateRxData 0 buf).2.1 = toUint32 (signedValue sign digits) := by
    intro ws sign digits hnum hok
    obtain ⟨hin, hout⟩ := validate_numeral 0 buf ws sign digits hnum
    by_cases hr : LONG_MIN ≤ signedValue sign digits ∧ signedValue sign digits ≤ LONG_MAX
    · exact ⟨hr, by rw [hin hr]⟩
    · rw [(hout hr).1] at hok
      exact absurd hok (by simp)
  refine ⟨⟨fun hok => ?_, ?_⟩, fun ws sign digits hnum hok => (hval ws sign digits hnum hok).2, ?_⟩
  · obtain ⟨ws, sign, digits, hnum⟩ := validate_accepts_numeral 0 buf hne hnul hok
    exact ⟨ws, sign, digits, hnum, (hval ws sign digits hnum hok).1⟩
  · rintro ⟨ws, sign, digits, hnum, hr⟩
    rw [(validate_numeral 0 buf ws sign digits hnum).1 hr]
    simp
  · intro hdec hle
    have hnum : IsStrtolNumeral buf [] [] buf := ⟨rfl, by simp, Or.inl rfl, hdec⟩
    have hsv : signedValue [] buf = (decimalValue buf : Int) := by simp [signedValue]
    have hr : LONG_MIN ≤ signedValue [] buf ∧ signedValue [] buf ≤ LONG_MAX := by
      rw [hsv]; unfold LONG_MIN LONG_MAX; omega
    rw [(validate_numeral 0 buf [] [] buf hnum).1 hr, hsv,
      toUint32_natCast _ (by unfold UINT32_MOD; omega)]
    simp

/-- Witness for C9 as amended, at the buffer `"42"`. -/
theorem validate_iff_strtol_numeral_witness :
    ("42".toList ≠ [] ∧ ∀ c ∈ "42".toList, c ≠ Char.ofNat 0) ∧
    serial_validateRxData 0 "42".toList = (true, 42, 0) :=
  ⟨⟨by decide, by decide⟩,
    (validate_iff_strtol_numeral "42".toList (by decide) (by decide)).2.2
      (by decide) (by decide)⟩

/-- C10: an input whose validated value is 0 takes the reset path and leaves
the request queue as it was; and whatever the input, `serial_postFoobarData`
either leaves the request queue as it was or appends one value, which is
positive and fits in 32 bits. -/
theorem zero_takes_reset_path (rx : List Char) (errno : Nat) (queue : List Nat)
    (hrx : 0 < (rx.take (RX_BUF_SIZE - 1)).length)
    (hok : (serial_validateRxData errno (cstring (rx.take (RX_BUF_SIZE - 1)))).1 = true)
    (hzero : (serial_validateRxData errno (cstring (rx.take (RX_BUF_SIZE - 1)))).2.1 = 0) :
    (serial_postFoobarData rx errno queue).restarted = true ∧
    (serial_postFoobarData rx errno queue).queue = queue ∧
    ∀ (rx2 : List Char) (errno2 : Nat) (queue2 : List Nat),
      (serial_postFoobarData rx2 errno2 queue2).queue = queue2 ∨
      ∃ v, 0 < v ∧ v < UINT32_MOD ∧
        (serial_postFoobarData rx2 errno2 queue2).queue = queue2 ++ [v] := by
  refine ⟨?_, ?_, ?_⟩
  · unfold serial_postFoobarData
    simp only [if_pos hrx, hok, hzero]
    simp
  · unfold serial_postFoobarData
    simp only [if_pos hrx, hok, hzero]
    simp
  · intro rx2 errno2 queue2
    unfold serial_postFoobarData
    by_cases h1 : 0 < (rx2.take (RX_BUF_SIZE - 1)).length
    · simp only [if_pos h1]
      by_cases h2 : (serial_validateRxData errno2 (cstring (rx2.take (RX_BUF_SIZE - 1)))).1 = true
      · simp only [h2, Bool.not_true, Bool.false_eq_true, if_false]
        by_cases h3 : (serial_validateRxData errno2 (cstring (rx2.take (RX_BUF_SIZE - 1)))).2.1 = 0
        · simp only [if_pos h3]; exact Or.inl trivial
        · simp only [if_neg h3]
          by_cases h4 : queue2.length < FOOBAR_QUEUE_SIZE
          · right
            refine ⟨_, Nat.pos_of_ne_zero h3, toUint32_lt _, ?_⟩
            simp [xQueueSend, h4]
          · left
            simp [xQueueSend, h4]
      · simp only [Bool.not_eq_true] at h2
        simp only [h2, Bool.not_false, if_true]
        exact Or.inl trivial
    · simp only [if_neg h1]; exact Or.inl trivial

/-- Witness for C10: the input `"0"`. -/
theorem zero_takes_reset_path_witness :
    (0 < ("0".toList.take (RX_BUF_SIZE - 1)).length ∧
      (serial_validateRxData 0 (cstring ("0".toList.take (RX_BUF_SIZE - 1)))).1 = true ∧
      (serial_validateRxData 0 (cstring ("0".toList.take (RX_BUF_SIZE - 1)))).2.1 = 0) ∧
    (serial_postFoobarData "0".toList 0 [3]).restarted = true ∧
    (serial_postFoobarData "0".toList 0 [3]).queue = [3] :=
  ⟨⟨by decide, by decide, by decide⟩,
    let h := zero_takes_reset_path "0".toList 0 [3] (by decide) (by decide) (by decide)
    ⟨h.1, h.2.1⟩⟩

/-! ## Further lemmas on the feeder -/

/-- The call `strtol` leaves `errno` as it was or sets it to `ERANGE`; it
never clears it. -/
theorem strtol_errno (errno : Nat) (buf : List Char) :
    (strtol errno buf).2.2 = errno ∨ (strtol errno buf).2.2 = ERANGE := by
  unfold strtol
  simp only
  split
  · exact Or.inl rfl
  · split
    · split
      · exact Or.inr rfl
      · exact Or.inl rfl
    · split
      · exact Or.inr rfl
      · exact Or.inl rfl

/-- With `errno` set at entry, `serial_validateRxData` fails and leaves
`errno` set. -/
theorem validate_stale (errno : Nat) (herr : errno ≠ 0) (buf : List Char) :
    (serial_validateRxData errno buf).1 = false ∧
    (serial_validateRxData errno buf).2.2 ≠ 0 := by
  have hne : (strtol errno buf).2.2 ≠ 0 := by
    rcases strtol_errno errno buf with h | h
    · rw [h]; exact herr
    · rw [h]; decide
  unfold serial_validateRxData
  exact ⟨by simp [hne], hne⟩

/-- A call of `serial_postFoobarData` whose validation fails. -/
theorem post_invalid (rx : List Char) (errno : Nat) (queue : List Nat)
    (hrx : 0 < (rx.take (RX_BUF_SIZE - 1)).length)
    (hbad : (serial_validateRxData errno (cstring (rx.take (RX_BUF_SIZE - 1)))).1 = false) :
    serial_postFoobarData rx errno queue =
      { output := [strInvalidData], queue := queue,
        errno := (serial_validateRxData errno (cstring (rx.take (RX_BUF_SIZE - 1)))).2.2,
        restarted := false } := by
  unfold serial_postFoobarData
  simp only [if_pos hrx, hbad, Bool.not_false, if_true]

/-- A call of `serial_postFoobarData` that reads nothing. -/
theorem post_nothing (rx : List Char) (errno : Nat) (queue : List Nat)
    (hrx : ¬ 0 < (rx.take (RX_BUF_SIZE - 1)).length) :
    serial_postFoobarData rx errno queue =
      { output := [], queue := queue, errno := errno, restarted := false } := by
  unfold serial_postFoobarData
  simp only [if_neg hrx]

/-- A call of `serial_postFoobarData` on a validated value other than 0. -/
theorem post_valid (rx : List Char) (errno : Nat) (queue : List Nat)
    (hrx : 0 < (rx.take (RX_BUF_SIZE - 1)).length)
    (hok : (serial_validateRxData errno (cstring (rx.take (RX_BUF_SIZE - 1)))).1 = true)
    (hnz : (serial_validateRxData errno (cstring (rx.take (RX_BUF_SIZE - 1)))).2.1 ≠ 0) :
    serial_postFoobarData rx errno queue =
      { output :=
          if (xQueueSend FOOBAR_QUEUE_SIZE queue
              (serial_validateRxData errno (cstring (rx.take (RX_BUF_SIZE - 1)))).2.1).2
          then [String.mk ("Received ".toList ++ cstring (rx.take (RX_BUF_SIZE - 1)))]
          else [String.mk ("Received ".toList ++ cstring (rx.take (RX_BUF_SIZE - 1))),
                strQueueFull],
        queue := (xQueueSend FOOBAR_QUEUE_SIZE queue
          (serial_validateRxData errno (cstring (rx.take (RX_BUF_SIZE - 1)))).2.1).1,
        errno := (serial_validateRxData errno (cstring (rx.take (RX_BUF_SIZE - 1)))).2.2,
        restarted := false } := by
  unfold serial_postFoobarData
  simp only [if_pos hrx, hok, Bool.not_true, Bool.false_eq_true, if_false, if_neg hnz, strncat,
    List.take_length]
  split <;> simp_all

/-- The text announcing a reception is not the text `strQueueFull`. -/
theorem received_ne_queueFull (t : List Char) :
    String.mk ("Received ".toList ++ t) ≠ strQueueFull := by
  intro h
  have h2 : some 'R' = some 'C' := congrArg (fun s : String => s.data.head?) h
  exact absurd h2 (by decide)

/-! ## Further claims on the feeder -/

/-- C11: for a validated value `v` other than 0, `serial_postFoobarData`
passes `v` to the send; with fewer than 7 values in the request queue `v` goes
to its tail and `"Currently full"` is not written; with 7 values in it the
queue is left as it was, `"Currently full"` is written after the text
announcing the reception, and the call returns without a restart. -/
theorem request_queue_overflow (rx : List Char) (errno : Nat) (queue : List Nat) (v : Nat)
    (hrx : 0 < (rx.take (RX_BUF_SIZE - 1)).length)
    (hok : (serial_validateRxData errno (cstring (rx.take (RX_BUF_SIZE - 1)))).1 = true)
    (hv : (serial_validateRxData errno (cstring (rx.take (RX_BUF_SIZE - 1)))).2.1 = v)
    (hnz : v ≠ 0) :
    serial_postFoobarData_sent rx errno = some v ∧
    (queue.length < 7 →
      (serial_postFoobarData rx errno queue).queue = queue ++ [v] ∧
      strQueueFull ∉ (serial_postFoobarData rx errno queue).output ∧
      (serial_postFoobarData rx errno queue).restarted = false) ∧
    (queue.length = 7 →
      (serial_postFoobarData rx errno queue).queue = queue ∧
      (serial_postFoobarData rx errno queue).output
        = [String.mk ("Received ".toList ++ cstring (rx.take (RX_BUF_SIZE - 1))),
            "Currently full"] ∧
      (serial_postFoobarData rx errno queue).restarted = false) := by
  subst hv
  have hpost := post_valid rx errno queue hrx hok hnz
  refine ⟨?_, fun hlen => ?_, fun hlen => ?_⟩
  · unfold serial_postFoobarData_sent
    simp only [if_pos hrx, hok, Bool.not_true, Bool.false_eq_true, if_false, if_neg hnz]
  · have hsend : xQueueSend FOOBAR_QUEUE_SIZE queue
        (serial_validateRxData errno (cstring (rx.take (RX_BUF_SIZE - 1)))).2.1
        = (queue ++ [(serial_validateRxData errno
            (cstring (rx.take (RX_BUF_SIZE - 1)))).2.1], true) := by
      unfold xQueueSend FOOBAR_QUEUE_SIZE
      rw [if_pos hlen]
    rw [hpost, hsend]
    refine ⟨rfl, ?_, rfl⟩
    simp only [if_true, List.mem_singleton]
    exact fun h => received_ne_queueFull _ h.symm
  · have hsend : xQueueSend FOOBAR_QUEUE_SIZE queue
        (serial_validateRxData errno (cstring (rx.take (RX_BUF_SIZE - 1)))).2.1
        = (queue, false) := by
      unfold xQueueSend FOOBAR_QUEUE_SIZE
      rw [if_neg (by omega)]
    rw [hpost, hsend]
    exact ⟨rfl, rfl, rfl⟩

/-- Witness for C11: the input `"5"` with seven requests waiting. -/
theorem request_queue_overflow_witness :
    (0 < ("5".toList.take (RX_BUF_SIZE - 1)).length ∧
      (serial_validateRxData 0 (cstring ("5".toList.take (RX_BUF_SIZE - 1)))).1 = true ∧
      (serial_validateRxData 0 (cstring ("5".toList.take (RX_BUF_SIZE - 1)))).2.1 = 5 ∧
      (5 : Nat) ≠ 0 ∧ [1, 2, 3, 4, 5, 6, 7].length = 7) ∧
    (serial_postFoobarData "5".toList 0 [1, 2, 3, 4, 5, 6, 7]).queue = [1, 2, 3, 4, 5, 6, 7] ∧
    (serial_postFoobarData "5".toList 0 [1, 2, 3, 4, 5, 6, 7]).output
      = ["Received 5", "Currently full"] :=
  ⟨⟨by decide, by decide, by decide, by decide, by decide⟩,
    let h := (request_queue_overflow "5".toList 0 [1, 2, 3, 4, 5, 6, 7] 5
      (by decide) (by decide) (by decide) (by decide)).2.2 (by decide)
    ⟨h.1, h.2.1⟩⟩

/-- C12: for an input of at least one byte that `serial_validateRxData`
rejects, `serial_postFoobarData` writes the text `"Invalid data"` and nothing
else, does not reach the send, does not restart, and leaves the request queue,
and with it the state of the coordinator, as it was. -/
theorem parse_failure_reported (rx : List Char) (errno : Nat) (queue : List Nat)
    (hrx : 0 < (rx.take (RX_BUF_SIZE - 1)).length)
    (hbad : (serial_validateRxData errno (cstring (rx.take (RX_BUF_SIZE - 1)))).1 = false) :
    (serial_postFoobarData rx errno queue).output = ["Invalid data"] ∧
    serial_postFoobarData_sent rx errno = none ∧
    (serial_postFoobarData rx errno queue).queue = queue ∧
    (serial_postFoobarData rx errno queue).restarted = false ∧
    ∀ c : FoobarState, c.foobarQueue = queue →
      { c with foobarQueue := (serial_postFoobarData rx errno queue).queue } = c := by
  rw [post_invalid rx errno queue hrx hbad]
  refine ⟨rfl, ?_, rfl, rfl, ?_⟩
  · unfold serial_postFoobarData_sent
    simp only [if_pos hrx, hbad, Bool.not_false, if_true]
  · intro c hc
    cases c
    simp_all

/-- Witness for C12: the input `"abc"`. -/
theorem parse_failure_reported_witness :
    (0 < ("abc".toList.take (RX_BUF_SIZE - 1)).length ∧
      (serial_validateRxData 0 (cstring ("abc".toList.take (RX_BUF_SIZE - 1)))).1 = false) ∧
    (serial_postFoobarData "abc".toList 0 [3]).output = ["Invalid data"] ∧
    serial_postFoobarData_sent "abc".toList 0 = none ∧
    (serial_postFoobarData "abc".toList 0 [3]).queue = [3] :=
  ⟨⟨by decide, by decide⟩,
    let h := parse_failure_reported "abc".toList 0 [3] (by decide) (by decide)
    ⟨h.1, h.2.1, h.2.2.1⟩⟩

/-- A run of calls of `serial_postFoobarData` that starts with `errno` set:
every call that reads something writes `"Invalid data"`, no call changes the
request queue, and `errno` stays set. -/
theorem feedAll_stale (inputs : List (List Char)) :
    ∀ (errno : Nat) (queue : List Nat), errno ≠ 0 →
      List.Forall₂
        (fun rx r =>
          (0 < (rx.take (RX_BUF_SIZE - 1)).length → r.output = [strInvalidData]) ∧
          r.queue = queue ∧ r.errno ≠ 0 ∧ r.restarted = false)
        inputs (feedAll inputs errno queue) := by
  induction inputs with
  | nil => intro errno queue _; exact List.Forall₂.nil
  | cons rx rest ih =>
    intro errno queue herr
    have hstale := validate_stale errno herr (cstring (rx.take (RX_BUF_SIZE - 1)))
    unfold feedAll
    by_cases hrx : 0 < (rx.take (RX_BUF_SIZE - 1)).length
    · rw [post_invalid rx errno queue hrx hstale.1]
      exact List.Forall₂.cons ⟨fun _ => rfl, rfl, hstale.2, rfl⟩ (ih _ queue hstale.2)
    · rw [post_nothing rx errno queue hrx]
      exact List.Forall₂.cons ⟨fun h => absurd h hrx, rfl, herr, rfl⟩ (ih errno queue herr)

/-- C17: `strtol` never clears `errno` and `serial_validateRxData` does not
clear it before the call, so with `errno` set at entry every buffer is
rejected, the well-formed `"5"` included, which is accepted when `errno` is 0;
an input out of the range of `long` sets `errno`, and from then on every input
is answered with `"Invalid data"` and the request queue does not change. -/
theorem stale_errno_rejects (errno : Nat) (herr : errno ≠ 0) (buf : List Char) :
    ((strtol errno buf).2.2 = errno ∨ (strtol errno buf).2.2 = ERANGE) ∧
    (serial_validateRxData errno buf).1 = false ∧
    (serial_validateRxData errno buf).2.2 ≠ 0 ∧
    (serial_validateRxData errno "5".toList).1 = false ∧
    serial_validateRxData 0 "5".toList = (true, 5, 0) ∧
    (∀ queue, (serial_postFoobarData "3000000000".toList 0 queue).errno = ERANGE) ∧
    ∀ (inputs : List (List Char)) (queue : List Nat),
      List.Forall₂
        (fun rx r =>
          (0 < (rx.take (RX_BUF_SIZE - 1)).length → r.output = ["Invalid data"]) ∧
          r.queue = queue ∧ r.errno ≠ 0 ∧ r.restarted = false)
        inputs (feedAll inputs errno queue) := by
  refine ⟨strtol_errno errno buf, (validate_stale errno herr buf).1,
    (validate_stale errno herr buf).2, (validate_stale errno herr _).1, by decide, ?_,
    fun inputs queue => feedAll_stale inputs errno queue herr⟩
  intro queue
  rw [post_invalid "3000000000".toList 0 queue (by decide) (by decide)]
  show (serial_validateRxData 0
    (cstring ("3000000000".toList.take (RX_BUF_SIZE - 1)))).2.2 = ERANGE
  decide

/-- Witness for C17: after the range error of `"3000000000"` the inputs `"5"`
and `"7"` are answered with `"Invalid data"`. -/
theorem stale_errno_rejects_witness :
    ERANGE ≠ 0 ∧
    (serial_validateRxData ERANGE "5".toList).1 = false ∧
    feedAll ["3000000000".toList, "5".toList, "7".toList] 0 []
      = [⟨["Invalid data"], [], ERANGE, false⟩, ⟨["Invalid data"], [], ERANGE, false⟩,
         ⟨["Invalid data"], [], ERANGE, false⟩] :=
  ⟨by decide, (stale_errno_rejects ERANGE (by decide) "5".toList).2.1, by decide⟩

/-! ## Further claims on the coordinator and the workers -/

/-- C14: a tick that starts with counter 0 and finds the value 0 at the head
of the request queue removes it, sends nothing and ends with counter 0; and
after any tick the counter is one less than a positive counter left by the
first block and 0 otherwise, so it never wraps to 4294967295. -/
theorem zero_keeps_idle (s : FoobarState) (hwf : s.WF) :
    (∀ rest, s.curValue = 0 → s.foobarQueue = 0 :: rest →
      foobar_task_tick s
        = some (⟨0, rest, s.fooQueue, s.barQueue⟩, [Event.receive (some 0)])) ∧
    ∃ s2 evs, foobar_task_tick s = some (s2, evs) ∧
      (0 < (idleCheck s).1.curValue → s2.curValue + 1 = (idleCheck s).1.curValue) ∧
      ((idleCheck s).1.curValue = 0 → s2.curValue = 0 ∧ sentMsgs evs = []) ∧
      s2.curValue ≤ (idleCheck s).1.curValue ∧ s2.curValue < 4294967295 := by
  constructor
  · intro rest h0 hq
    have hid := idleCheck_recv s h0 0 rest hq
    have ht := tick_zero s (by rw [hid])
    rw [hid] at ht
    exact ht
  · obtain ⟨t, ht, hc⟩ := tick_curValue s hwf
    have h32 := (idleCheck_wf s hwf).1
    refine ⟨t.1, t.2, ht, fun hpos => by omega, fun h0 => ⟨by omega, ?_⟩, by omega, ?_⟩
    · have ht0 := tick_zero s h0
      rw [ht] at ht0
      have hev : t.2 = (idleCheck s).2 := by
        have := Option.some.inj ht0
        rw [this]
      rw [hev]
      unfold idleCheck
      by_cases hs0 : s.curValue = 0
      · rw [if_pos hs0]
        rcases s.foobarQueue with _ | ⟨n, rest⟩ <;> simp [xQueueReceive, sentMsgs]
      · rw [if_neg hs0]; rfl
    · unfold UINT32_MOD at h32
      omega

/-- Witness for C14: counter 0 with the value 0 at the head of the request
queue. -/
theorem zero_keeps_idle_witness :
    FoobarState.WF ⟨0, [0, 3], [], []⟩ ∧
    foobar_task_tick ⟨0, [0, 3], [], []⟩
      = some (⟨0, [3], [], []⟩, [Event.receive (some 0)]) :=
  ⟨by decide, (zero_keeps_idle ⟨0, [0, 3], [], []⟩ (by decide)).1 [3] rfl rfl⟩

/-- C16: whatever the label and the message, `snprintf` with bound 14 leaves
at most 13 characters, `strncat` adds at most the 6 of `" Prime"`, and the
text with its NUL takes at most 20 bytes, fewer than the 64 of the buffer; so
does every text a worker writes. -/
theorem print_buffer_suffices (label : List Char) (msg : foobarMsg_t)
    (q : List foobarMsg_t) :
    (snprintf 14 label msg.value).length ≤ 13 ∧
    (" Prime".toList.take 7).length ≤ 6 ∧
    (renderMsg label msg).length + 1 ≤ 20 ∧
    20 ≤ PRINT_BUFFER_SIZE ∧
    (renderMsg label msg).length + 1 < PRINT_BUFFER_SIZE ∧
    (∀ t ∈ (foo_task_tick msg q).2, t.length + 1 ≤ 20) ∧
    (∀ t ∈ (bar_task_tick msg q).2, t.length + 1 ≤ 20) := by
  have hsn : ∀ (l : List Char) (v : Nat), (snprintf 14 l v).length ≤ 13 := by
    intro l v
    unfold snprintf
    rw [List.length_take]
    omega
  have hren : ∀ (l : List Char) (m : foobarMsg_t), (renderMsg l m).length + 1 ≤ 20 := by
    intro l m
    have := hsn l m.value
    unfold renderMsg
    split
    · unfold strncat
      rw [List.length_append]
      have h6 : (" Prime".toList.take 7).length = 6 := by decide
      omega
    · omega
  have hbuf : 20 ≤ PRINT_BUFFER_SIZE := by decide
  refine ⟨hsn label msg.value, by decide, hren label msg, hbuf,
    by have := hren label msg; unfold PRINT_BUFFER_SIZE; omega, ?_, ?_⟩
  · intro t ht
    unfold foo_task_tick at ht
    cases q with
    | nil =>
      simp only [xQueueReceive, List.mem_singleton] at ht
      rw [ht]
      exact hren _ msg
    | cons m rest => simp [xQueueReceive] at ht
  · intro t ht
    unfold bar_task_tick at ht
    cases q with
    | nil =>
      simp only [xQueueReceive, List.mem_singleton] at ht
      rw [ht]
      exact hren _ msg
    | cons m rest => simp [xQueueReceive] at ht

/-- Invariant of the recorded loop: with enough fuel and a value whose half
stays below the wrap-around point, the loop returns what `isPrimeLoop` returns,
its body ran at `i, i + 1, ..., value / 2`, and it stopped at the larger of `i`
and `value / 2 + 1`. -/
theorem isPrimeLoopTrace_enough (value : Nat) (hv : value / 2 + 1 < UINT32_MOD) :
    ∀ (fuel i : Nat) (retval : Bool), (i ≤ value / 2 → value / 2 + 2 ≤ fuel + i) →
      0 < fuel →
      isPrimeLoopTrace value fuel i retval
        = some (retval && decide (NoDivisorFrom value i),
            List.range' i (value / 2 + 1 - i), max i (value / 2 + 1)) := by
  intro fuel
  induction fuel with
  | zero => intro i retval _ h; omega
  | succ fuel ih =>
    intro i retval hfuel _
    unfold isPrimeLoopTrace
    by_cases hle : i ≤ value / 2
    · have hlt : i + 1 < UINT32_MOD := by omega
      have hfuel2 := hfuel hle
      have hpos : 0 < fuel := by omega
      have hnext : i + 1 ≤ value / 2 → value / 2 + 2 ≤ fuel + (i + 1) := by
        intro _; omega
      rw [if_pos hle, Nat.mod_eq_of_lt hlt, ih (i + 1) _ hnext hpos]
      have hr : value / 2 + 1 - i = (value / 2 + 1 - (i + 1)) + 1 := by omega
      have hmax : max (i + 1) (value / 2 + 1) = max i (value / 2 + 1) := by
        rw [max_eq_right (by omega), max_eq_right (by omega)]
      simp only [hmax]
      rw [hr, List.range'_succ]
      congr 2
      by_cases hd : value % i = 0
      · have : ¬ NoDivisorFrom value i := fun h => ((noDivisorFrom_step hle).1 h).1 hd
        simp [hd, this]
      · have : NoDivisorFrom value i ↔ NoDivisorFrom value (i + 1) := by
          rw [noDivisorFrom_step hle]; simp [hd]
        simp [hd, this]
    · rw [if_neg hle]
      have : NoDivisorFrom value i := noDivisorFrom_of_gt (by omega)
      have h0 : value / 2 + 1 - i = 0 := by omega
      have hmax : max i (value / 2 + 1) = i := max_eq_left (by omega)
      simp [this, h0, hmax]

/-- C15, as stated, fails at 0 and 1: the loop variable starts at 2, which
exceeds `v / 2 + 1 = 1`, although the body never runs. -/
theorem loop_variable_exceeds_bound :
    isPrimeTrace 0 = some (false, [], 2) ∧ ¬ (2 ≤ 0 / 2 + 1) ∧
    isPrimeTrace 1 = some (false, [], 2) ∧ ¬ (2 ≤ 1 / 2 + 1) := by
  decide

/-- C15, amended: for every 32-bit `v` the loop of `isPrime` returns after
`v / 2 - 1` iterations, none when `v / 2 < 2`; its body runs at
`i = 2, 3, ..., v / 2`, so `v % i` is never computed with `i < 2` and the
increment never wraps; and the loop variable ends at the larger of 2 and
`v / 2 + 1`, which is at most `2 ^ 31`. -/
theorem isPrime_loop_bounds (v : Nat) (hv : v < UINT32_MOD) :
    ∃ r visited last, isPrimeTrace v = some (r, visited, last) ∧ isPrime v = some r ∧
      visited = List.range' 2 (v / 2 - 1) ∧ visited.length = v / 2 - 1 ∧
      (∀ i ∈ visited, 2 ≤ i ∧ i ≤ v / 2 ∧ (i + 1) % UINT32_MOD = i + 1 ∧ i < last) ∧
      last = max 2 (v / 2 + 1) ∧ last ≤ 2147483648 ∧ last < UINT32_MOD := by
  have hhalf : v / 2 + 1 < UINT32_MOD := by
    simp only [UINT32_MOD] at hv ⊢; omega
  have htrace := isPrimeLoopTrace_enough v hhalf (v / 2 + 1) 2
    (if v ≤ 1 then false else true) (by omega) (by omega)
  have hres := isPrimeLoop_enough v hhalf (v / 2 + 1) 2
    (if v ≤ 1 then false else true) (by omega) (by omega)
  have hlen : v / 2 + 1 - 2 = v / 2 - 1 := by omega
  rw [hlen] at htrace
  refine ⟨_, _, _, htrace, hres, rfl, by simp, ?_, rfl, ?_, ?_⟩
  · intro i hi
    rw [List.mem_range'_1] at hi
    have hi2 : i ≤ v / 2 := by omega
    refine ⟨hi.1, hi2, Nat.mod_eq_of_lt (by omega), ?_⟩
    rw [max_eq_right (by omega)]
    omega
  · simp only [UINT32_MOD] at hv
    rw [Nat.max_le]
    omega
  · simp only [UINT32_MOD] at hv ⊢
    rw [Nat.max_lt]
    omega

/-- Witness for C15 as amended, at 12: the body runs at 2, 3, 4, 5 and 6. -/
theorem isPrime_loop_bounds_witness :
    12 < UINT32_MOD ∧
    ∃ r visited last, isPrimeTrace 12 = some (r, visited, last) ∧ isPrime 12 = some r ∧
      visited = List.range' 2 (12 / 2 - 1) ∧ visited.length = 12 / 2 - 1 :=
  ⟨by decide,
    let ⟨r, visited, last, h1, h2, h3, h4, _⟩ := isPrime_loop_bounds 12 (by decide)
    ⟨r, visited, last, h1, h2, h3, h4⟩⟩

/-! ## The claim on the startup -/

/-- C13: the queues are created by the tasks themselves after they have been
created, so there are interleavings that break the ordering.  A call of the
feeder before `foobar_task` has run gets from `foobar_getQueue` a handle that
has not been assigned; and when a request arrives after `foobar_task` has
created the workers and before `foo_task` has run, the first tick of the
coordinator sends on the handle `fooQueue` that has not been assigned.  When
the workers run first, neither happens. -/
theorem startup_race :
    (runSchedule [Actor.feeder "5".toList] afterInit).getQueueNull = true ∧
    (runSchedule [Actor.foobar, Actor.foobar, Actor.foobar, Actor.feeder "4".toList,
      Actor.foobar] afterInit).sendOnNullHandle = true ∧
    (runSchedule [Actor.foobar, Actor.foobar, Actor.foobar, Actor.feeder "5".toList,
      Actor.foo, Actor.foobar] afterInit).sendOnNullHandle = true ∧
    (runSchedule [Actor.foobar, Actor.foobar, Actor.foobar, Actor.foo, Actor.bar,
      Actor.feeder "4".toList, Actor.foobar] afterInit).sendOnNullHandle = false ∧
    (runSchedule [Actor.foobar, Actor.foobar, Actor.foobar, Actor.foo, Actor.bar,
      Actor.feeder "4".toList, Actor.foobar] afterInit).getQueueNull = false := by
  decide

end FooBar
